import Mathlib

/-!
Shallow embedding of the admission-control engine of the repository
(`src/utils/rateLimiter.js`).  Timestamps are milliseconds modelled as `Int`
(JS `Date.now()` values and their differences), violation counters are exact
rationals (`ℚ`, the source treats them as real numbers decaying by `0.1`),
and the JS `Map`s are modelled as association lists with explicit
lookup/set/erase operations.  Every mutating method of the `RateLimiter`
class becomes a function returning the updated state.
-/

namespace RL

/-- Policy configuration, the `this.config` object of the source constructor
(plus the ban duration); quotas and durations are nonnegative integers. -/
structure Config where
  userRequestsPerMinute : Nat
  userRequestsPerHour : Nat
  globalRequestsPerMinute : Nat
  globalRequestsPerHour : Nat
  premiumUserRequestsPerMinute : Nat
  premiumUserRequestsPerHour : Nat
  cooldownPeriod : Nat
  tempBanDuration : Nat
deriving DecidableEq

/-- The defaults from the source (`|| 10`, `|| 50`, `|| 100`, `|| 1000`,
`|| 30`, `|| 200`, `|| 60000`, `|| 300000`). -/
def defaultConfig : Config :=
  ⟨10, 50, 100, 1000, 30, 200, 60000, 300000⟩

/-- Per-caller ledger record: `{ requests: [], violations: 0 }`. -/
structure UserData where
  requests : List Int
  violations : ℚ
deriving DecidableEq

/-- Denial reason codes of the source. -/
inductive Reason where
  | temp_ban
  | temp_ban_applied
  | minute_limit
  | hour_limit
  | global_minute_limit
  | global_hour_limit
deriving DecidableEq

/-- Result object of a check.  `remaining` is present only on the result
objects that carry a `remaining` field in the source; the presentational
`message` string is not modelled. -/
structure Decision where
  allowed : Bool
  reason : Option Reason := none
  retryAfter : Option ℚ := none
  remaining : Option (Int × Int) := none
deriving DecidableEq

/-- Association-list lookup (JS `Map.get`). -/
def lookupA {α : Type} (k : String) : List (String × α) → Option α
  | [] => none
  | (k', v) :: rest => if k' = k then some v else lookupA k rest

/-- Association-list insert/replace (JS `Map.set`). -/
def setA {α : Type} (k : String) (v : α) : List (String × α) → List (String × α)
  | [] => [(k, v)]
  | (k', v') :: rest => if k' = k then (k, v) :: rest else (k', v') :: setA k v rest

/-- Association-list delete (JS `Map.delete`). -/
def eraseA {α : Type} (k : String) : List (String × α) → List (String × α)
  | [] => []
  | (k', v') :: rest => if k' = k then eraseA k rest else (k', v') :: eraseA k rest

/-- The whole mutable state of a `RateLimiter` instance: `userLimits`,
`globalLimits` (a map holding at most the single key `'global'`, modelled as
an `Option`), the configuration, `tempBans` and `premiumUsers`. -/
structure RateLimiter where
  userLimits : List (String × UserData)
  globalLimits : Option (List Int)
  config : Config
  tempBans : List (String × Int)
  premiumUsers : List String
deriving DecidableEq

/-- The constructor: empty ledgers and bans, the given configuration and
premium list. -/
def RateLimiter.init (cfg : Config) (premium : List String) : RateLimiter :=
  ⟨[], none, cfg, [], premium⟩

/-- Minute quota of a caller under the tier policy of `checkUserLimit`. -/
def minuteQuotaFor (cfg : Config) (premium : List String) (u : String) : Nat :=
  if premium.contains u then cfg.premiumUserRequestsPerMinute else cfg.userRequestsPerMinute

/-- Hour quota of a caller under the tier policy of `checkUserLimit`. -/
def hourQuotaFor (cfg : Config) (premium : List String) (u : String) : Nat :=
  if premium.contains u then cfg.premiumUserRequestsPerHour else cfg.userRequestsPerHour

/-- The caller record as `checkUserLimit` reads it (`get` with the empty
default standing for the lazy create-then-read of the source). -/
def userDataOf (rl : RateLimiter) (u : String) : UserData :=
  (lookupA u rl.userLimits).getD ⟨[], 0⟩

/-- The caller's raw (unpruned) request-timestamp list. -/
def ReqOf (rl : RateLimiter) (u : String) : List Int :=
  (userDataOf rl u).requests

/-- The raw global request-timestamp list (empty when the `'global'` entry
does not exist yet). -/
def ReqG (rl : RateLimiter) : List Int :=
  rl.globalLimits.getD []

/-- The caller's request list pruned to the trailing hour, the in-place
`filter` at the top of `checkUserLimit`. -/
def prunedRequests (rl : RateLimiter) (u : String) (now : Int) : List Int :=
  (userDataOf rl u).requests.filter (fun t => decide (now - t < 3600000))

/-- The trailing-minute sublist of the pruned request list. -/
def minuteRequests (rl : RateLimiter) (u : String) (now : Int) : List Int :=
  (prunedRequests rl u now).filter (fun t => decide (now - t < 60000))

/-- `recentMinute` of `checkUserLimit`. -/
def recentMinuteCount (rl : RateLimiter) (u : String) (now : Int) : Nat :=
  (minuteRequests rl u now).length

/-- `recentHour` of `checkUserLimit`. -/
def recentHourCount (rl : RateLimiter) (u : String) (now : Int) : Nat :=
  (prunedRequests rl u now).length

/-- The global request list pruned to the trailing hour. -/
def prunedGlobal (rl : RateLimiter) (now : Int) : List Int :=
  (rl.globalLimits.getD []).filter (fun t => decide (now - t < 3600000))

/-- `recentMinute` of `checkGlobalLimit`. -/
def globalMinuteCount (rl : RateLimiter) (now : Int) : Nat :=
  ((prunedGlobal rl now).filter (fun t => decide (now - t < 60000))).length

/-- `recentHour` of `checkGlobalLimit`. -/
def globalHourCount (rl : RateLimiter) (now : Int) : Nat :=
  (prunedGlobal rl now).length

/-- The decay applied to a positive violation count by an admission:
`Math.max(0, v - 0.1)`, and no change when the count is not positive. -/
def decay (v : ℚ) : ℚ :=
  if 0 < v then max 0 (v - (1/10 : ℚ)) else v

/-- The minute-limit retry hint:
`Math.max(60 - Math.floor((now - Math.max(...inMinute))/1000), 1)`.
`Math.max` of an empty spread is `-Infinity`, in which case the clamp
yields 1, which the `none` branch mirrors directly. -/
def minuteRetry (rl : RateLimiter) (u : String) (now : Int) : Int :=
  match (minuteRequests rl u now).max? with
  | some m => max (60 - (now - m).fdiv 1000) 1
  | none => 1

/-- The hour-limit retry hint:
`Math.max(60*60 - Math.floor((now - Math.min(...requests))/1000), 1)` over
the pruned request list, with the same empty-spread convention. -/
def hourRetry (rl : RateLimiter) (u : String) (now : Int) : Int :=
  match (prunedRequests rl u now).min? with
  | some m => max (3600 - (now - m).fdiv 1000) 1
  | none => 1

/-- The `checkUserLimit(userId, now)` method.  The source lazily creates an
empty record before reading it; since every branch below stores the updated
record back, reading with the empty default is equivalent to that
create-then-read.  All branches persist the pruned request list (the JS
prune mutates the stored object). -/
def checkUserLimit (rl : RateLimiter) (userId : String) (now : Int) :
    Decision × RateLimiter :=
  let minuteLimit := minuteQuotaFor rl.config rl.premiumUsers userId
  let hourLimit := hourQuotaFor rl.config rl.premiumUsers userId
  let userData := userDataOf rl userId
  let requests := prunedRequests rl userId now
  let inMinute := minuteRequests rl userId now
  let recentMinute := inMinute.length
  let recentHour := requests.length
  if minuteLimit ≤ recentMinute then
    let violations := userData.violations + 1
    if 3 ≤ violations then
      (⟨false, some .temp_ban_applied, some ((rl.config.tempBanDuration : ℚ) / 1000), none⟩,
       { rl with
          userLimits := setA userId ⟨requests, violations⟩ rl.userLimits,
          tempBans := setA userId (now + (rl.config.tempBanDuration : Int)) rl.tempBans })
    else
      (⟨false, some .minute_limit, some ((minuteRetry rl userId now : Int) : ℚ),
          some ((0 : Int), (hourLimit : Int) - (recentHour : Int))⟩,
       { rl with userLimits := setA userId ⟨requests, violations⟩ rl.userLimits })
  else if hourLimit ≤ recentHour then
    (⟨false, some .hour_limit, some ((hourRetry rl userId now : Int) : ℚ),
        some ((minuteLimit : Int) - (recentMinute : Int), (0 : Int))⟩,
     { rl with userLimits := setA userId ⟨requests, userData.violations⟩ rl.userLimits })
  else
    let violations := decay userData.violations
    (⟨true, none, none,
        some ((minuteLimit : Int) - (recentMinute : Int), (hourLimit : Int) - (recentHour : Int))⟩,
     { rl with userLimits := setA userId ⟨requests, violations⟩ rl.userLimits })

/-- The `checkGlobalLimit(now)` method; the `'global'` entry is created on
first use and the prune persists in every branch. -/
def checkGlobalLimit (rl : RateLimiter) (now : Int) : Decision × RateLimiter :=
  let requests := prunedGlobal rl now
  let recentMinute := (requests.filter (fun t => decide (now - t < 60000))).length
  let recentHour := requests.length
  let rl' := { rl with globalLimits := some requests }
  if rl.config.globalRequestsPerMinute ≤ recentMinute then
    (⟨false, some .global_minute_limit, some (60 : ℚ), none⟩, rl')
  else if rl.config.globalRequestsPerHour ≤ recentHour then
    (⟨false, some .global_hour_limit, some (3600 : ℚ), none⟩, rl')
  else
    (⟨true, none, none, none⟩, rl')

/-- The `recordRequest(userId, timestamp)` method: push onto the caller's
request list (the record exists whenever this is reached in the source). -/
def recordRequest (rl : RateLimiter) (userId : String) (timestamp : Int) : RateLimiter :=
  let userData := userDataOf rl userId
  { rl with userLimits := setA userId ⟨userData.requests ++ [timestamp], userData.violations⟩ rl.userLimits }

/-- The `recordGlobalRequest(timestamp)` method. -/
def recordGlobalRequest (rl : RateLimiter) (timestamp : Int) : RateLimiter :=
  { rl with globalLimits := some (rl.globalLimits.getD [] ++ [timestamp]) }

/-- The tail of `checkRateLimit` after the ban check: per-caller check, then
global check, then the two record steps on success, returning the bare
`{ allowed: true }` object. -/
def checkLimits (rl : RateLimiter) (userId : String) (now : Int) :
    Decision × RateLimiter :=
  let p := checkUserLimit rl userId now
  if p.1.allowed then
    let q := checkGlobalLimit p.2 now
    if q.1.allowed then
      (⟨true, none, none, none⟩, recordGlobalRequest (recordRequest q.2 userId now) now)
    else q
  else p

/-- The `checkRateLimit(userId)` method with `now` made explicit.  An active
temp ban denies with `retryAfter = ceil((banExpiry - now)/1000)`; an expired
ban entry is deleted and the call falls through to the quota checks. -/
def checkRateLimit (rl : RateLimiter) (userId : String) (now : Int) :
    Decision × RateLimiter :=
  match lookupA userId rl.tempBans with
  | some banExpiry =>
      if now < banExpiry then
        (⟨false, some .temp_ban, some ((⌈((banExpiry - now : ℤ) : ℚ) / 1000⌉ : ℤ) : ℚ), none⟩, rl)
      else
        checkLimits { rl with tempBans := eraseA userId rl.tempBans } userId now
  | none => checkLimits rl userId now

/-- The per-entry body of the sweep's caller loop: prune the record to the
trailing hour, and drop it when the pruned history is empty and the
violation count is exactly `0` (`(userData.violations || 0) === 0`). -/
def sweepUser (oneHourAgo : Int) (p : String × UserData) : Option (String × UserData) :=
  let pruned := p.2.requests.filter (fun t => decide (oneHourAgo < t))
  if pruned = [] ∧ p.2.violations = 0 then none
  else some (p.1, ⟨pruned, p.2.violations⟩)

/-- The `cleanup()` sweep with `now` explicit: prune every caller record to
the trailing hour deleting records that end empty with a zero violation
count, prune the global record if present, and delete bans whose expiry has
passed (`now > expiry`). -/
def cleanup (rl : RateLimiter) (now : Int) : RateLimiter :=
  let oneHourAgo := now - 3600000
  { rl with
      userLimits := rl.userLimits.filterMap (sweepUser oneHourAgo),
      globalLimits := rl.globalLimits.map (fun l => l.filter (fun t => decide (oneHourAgo < t))),
      tempBans := rl.tempBans.filter (fun p => decide (¬ now > p.2)) }

/-- Snapshot returned by `getUserStats`. -/
structure UserStats where
  isPremium : Bool
  minuteUsed : Nat
  minuteLimit : Nat
  hourUsed : Nat
  hourLimit : Nat
  violations : ℚ
  tempBanned : Bool
deriving DecidableEq

/-- The `getUserStats(userId)` method with `now` explicit.  The source only
reads state (the `||` default does not install a record); the returned
limiter mirrors that it leaves the state exactly as found. -/
def getUserStats (rl : RateLimiter) (userId : String) (now : Int) :
    UserStats × RateLimiter :=
  let userData := userDataOf rl userId
  let isPremium := rl.premiumUsers.contains userId
  let recentMinute := (userData.requests.filter (fun t => decide (now - t < 60000))).length
  let recentHour := (userData.requests.filter (fun t => decide (now - t < 3600000))).length
  (⟨isPremium, recentMinute, minuteQuotaFor rl.config rl.premiumUsers userId,
    recentHour, hourQuotaFor rl.config rl.premiumUsers userId,
    userData.violations, (lookupA userId rl.tempBans).isSome⟩, rl)

/-- The `addPremiumUser(userId)` method (`Set.add`). -/
def addPremiumUser (rl : RateLimiter) (userId : String) : RateLimiter :=
  { rl with premiumUsers := if rl.premiumUsers.contains userId then rl.premiumUsers
                            else rl.premiumUsers ++ [userId] }

/-- The `removePremiumUser(userId)` method (`Set.delete`). -/
def removePremiumUser (rl : RateLimiter) (userId : String) : RateLimiter :=
  { rl with premiumUsers := rl.premiumUsers.filter (fun v => decide (v ≠ userId)) }

/-- The `clearUserLimits(userId)` method: drop the ledger record and any
ban. -/
def clearUserLimits (rl : RateLimiter) (userId : String) : RateLimiter :=
  { rl with userLimits := eraseA userId rl.userLimits,
            tempBans := eraseA userId rl.tempBans }

/-- The caller's effective violation count (0 when no record exists). -/
def ViolOf (rl : RateLimiter) (u : String) : ℚ :=
  (userDataOf rl u).violations

/-! Traffic traces: sequences of `checkRateLimit` calls and `cleanup` sweeps,
used to state the reachable-state invariants. -/

/-- A traffic event: an admission check by a caller, or a sweep. -/
inductive TrafficEvent where
  | req (u : String) (now : Int)
  | sweep (now : Int)

/-- The wall-clock instant of a traffic event. -/
def TrafficEvent.time : TrafficEvent → Int
  | .req _ n => n
  | .sweep n => n

/-- Run a traffic trace from a state. -/
def runTraffic (rl : RateLimiter) : List TrafficEvent → RateLimiter
  | [] => rl
  | .req u n :: es => runTraffic (checkRateLimit rl u n).2 es
  | .sweep n :: es => runTraffic (cleanup rl n) es

/-- The (caller, time) pairs of the checks of a trace that return
`Allowed`, in trace order. -/
def allowedLog (rl : RateLimiter) : List TrafficEvent → List (String × Int)
  | [] => []
  | .req u n :: es =>
      (if (checkRateLimit rl u n).1.allowed then [(u, n)] else []) ++
        allowedLog (checkRateLimit rl u n).2 es
  | .sweep n :: es => allowedLog (cleanup rl n) es

/-- Number of instants of `l` lying in the trailing window `(T - w, T]`. -/
def windowCount (l : List Int) (T w : Int) : Nat :=
  (l.filter (fun t => decide (T - w < t ∧ t ≤ T))).length

/-- Times of the admitted requests of one caller. -/
def timesFor (u : String) (log : List (String × Int)) : List Int :=
  (log.filter (fun p => decide (p.1 = u))).map Prod.snd

/-- Times of all admitted requests. -/
def allTimes (log : List (String × Int)) : List Int :=
  log.map Prod.snd

/-- Apply an optional cutoff to a timestamp list (`none` keeps everything,
`some c` keeps the instants strictly above `c`). -/
def listFilterC : Option Int → List Int → List Int
  | none, l => l
  | some c, l => l.filter (fun t => decide (c < t))

/-- A cutoff is at least one hour older than the bound `b`. -/
def CutLe (c : Option Int) (b : Int) : Prop :=
  ∀ v, c = some v → v ≤ b - 3600000

/-- Keys of both string-keyed maps are duplicate-free (which every state
produced through the public API satisfies). -/
def WFKeys (rl : RateLimiter) : Prop :=
  (rl.userLimits.map Prod.fst).Nodup ∧ (rl.tempBans.map Prod.fst).Nodup

/-- Simulation invariant tying a state to the log of admitted requests:
each ledger is the admitted-request history behind some hour-deep cutoff,
all logged instants lie at or before the bound `b`, and every trailing
window of the log respects the corresponding quota. -/
structure Inv (cfg : Config) (prem : List String) (A : String → List Int)
    (G : List Int) (b : Int) (rl : RateLimiter) : Prop where
  config_eq : rl.config = cfg
  prem_eq : rl.premiumUsers = prem
  wf : WFKeys rl
  user_req : ∀ u, ∃ c, CutLe c b ∧ ReqOf rl u = listFilterC c (A u)
  glob_req : ∃ c, CutLe c b ∧ ReqG rl = listFilterC c G
  user_le : ∀ u, ∀ t ∈ A u, t ≤ b
  glob_le : ∀ t ∈ G, t ≤ b
  user_min : ∀ u T, windowCount (A u) T 60000 ≤ minuteQuotaFor cfg prem u
  user_hour : ∀ u T, windowCount (A u) T 3600000 ≤ hourQuotaFor cfg prem u
  glob_min : ∀ T, windowCount G T 60000 ≤ cfg.globalRequestsPerMinute
  glob_hour : ∀ T, windowCount G T 3600000 ≤ cfg.globalRequestsPerHour

/-! Operation traces over the full public API, for the reachability
invariants of the other claims. -/

/-- One call to the public mutating API of the limiter. -/
inductive OpEvent where
  | check (u : String) (now : Int)
  | sweep (now : Int)
  | addPrem (u : String)
  | removePrem (u : String)
  | clearUser (u : String)

/-- Apply one public operation to a state. -/
def applyOp (rl : RateLimiter) : OpEvent → RateLimiter
  | .check u n => (checkRateLimit rl u n).2
  | .sweep n => cleanup rl n
  | .addPrem u => addPremiumUser rl u
  | .removePrem u => removePremiumUser rl u
  | .clearUser u => clearUserLimits rl u

/-- A state is reachable when some sequence of public operations produces it
from a freshly constructed limiter. -/
def Reachable (cfg : Config) (prem : List String) (rl : RateLimiter) : Prop :=
  ∃ ops : List OpEvent, rl = ops.foldl applyOp (RateLimiter.init cfg prem)

/-- Run a sequence of checks by one caller at the given instants. -/
def runChecksFor (rl : RateLimiter) (u : String) : List Int → RateLimiter
  | [] => rl
  | t :: ts => runChecksFor (checkRateLimit rl u t).2 u ts

/-- Every check of the sequence is admitted. -/
def AllAllowed (rl : RateLimiter) (u : String) : List Int → Prop
  | [] => True
  | t :: ts => (checkRateLimit rl u t).1.allowed = true ∧
      AllAllowed (checkRateLimit rl u t).2 u ts

/-- A small configuration (quotas 2/min, 5/hr per caller, 1/min, 10/hr
globally) used to exhibit concrete behaviours. -/
def cfgSmall : Config :=
  ⟨2, 5, 1, 10, 3, 6, 60000, 300000⟩

/-- A state whose global minute window is already full while caller `"a"`
holds one violation and a clear per-caller quota. -/
def rlGlobalFull : RateLimiter :=
  ⟨[("a", ⟨[], 1⟩)], some [0], cfgSmall, [], []⟩

/-- A limiter whose only state is a temp ban for caller `"a"` expiring at
instant 100. -/
def rlBanned : RateLimiter := ⟨[], none, defaultConfig, [("a", 100)], []⟩

/-- Caller `"a"` has exhausted the small minute quota and already carries
two violations. -/
def rlBreach : RateLimiter := ⟨[("a", ⟨[0, 1], 2⟩)], none, cfgSmall, [], []⟩

/-- Caller `"a"` has exhausted the small minute quota with no prior
violations. -/
def rlBreachMild : RateLimiter := ⟨[("a", ⟨[0, 1], 0⟩)], none, cfgSmall, [], []⟩

/-- Caller `"a"` has exhausted the small hour quota (viewed from instant
100000 its five requests are outside the minute window). -/
def rlHourFull : RateLimiter := ⟨[("a", ⟨[0, 1, 2, 3, 4], 0⟩)], none, cfgSmall, [], []⟩


/-! Association-list lemmas. -/

theorem lookupA_setA_self {α : Type} (k : String) (v : α) (l : List (String × α)) :
    lookupA k (setA k v l) = some v := by
  induction l with
  | nil => simp [setA, lookupA]
  | cons p rest ih =>
      by_cases h : p.1 = k
      · simp [setA, h, lookupA]
      · simp [setA, h, lookupA, ih]

theorem lookupA_setA_ne {α : Type} {k k' : String} (h : k' ≠ k) (v : α)
    (l : List (String × α)) : lookupA k' (setA k v l) = lookupA k' l := by
  have hk : ¬ (k = k') := fun hh => h hh.symm
  induction l with
  | nil => simp [setA, lookupA, hk]
  | cons p rest ih =>
      by_cases hp : p.1 = k
      · have hp' : ¬ (p.1 = k') := by rw [hp]; exact hk
        simp [setA, hp, lookupA, hk, hp']
      · simp [setA, hp, lookupA, ih]

theorem lookupA_eraseA_self {α : Type} (k : String) (l : List (String × α)) :
    lookupA k (eraseA k l) = none := by
  induction l with
  | nil => simp [eraseA, lookupA]
  | cons p rest ih =>
      by_cases h : p.1 = k
      · simp [eraseA, h, ih]
      · simp [eraseA, h, lookupA, ih]

theorem lookupA_eraseA_ne {α : Type} {k k' : String} (h : k' ≠ k)
    (l : List (String × α)) : lookupA k' (eraseA k l) = lookupA k' l := by
  induction l with
  | nil => simp [eraseA]
  | cons p rest ih =>
      by_cases hp : p.1 = k
      · have hk : ¬ (k = k') := fun hh => h hh.symm
        have hp' : ¬ (p.1 = k') := by rw [hp]; exact hk
        simp [eraseA, hp, lookupA, hp', hk, ih]
      · simp [eraseA, hp, lookupA, ih]

theorem setA_setA {α : Type} (k : String) (v v' : α) (l : List (String × α)) :
    setA k v' (setA k v l) = setA k v' l := by
  induction l with
  | nil => simp [setA]
  | cons p rest ih =>
      by_cases h : p.1 = k
      · simp [setA, h]
      · simp [setA, h, ih]

theorem lookupA_mem {α : Type} {k : String} {v : α} {l : List (String × α)}
    (h : lookupA k l = some v) : (k, v) ∈ l := by
  induction l with
  | nil => simp [lookupA] at h
  | cons p rest ih =>
      obtain ⟨a, b⟩ := p
      simp only [lookupA] at h
      by_cases hp : a = k
      · rw [if_pos hp] at h
        injection h with hb
        subst hp
        subst hb
        exact List.mem_cons_self _ _
      · rw [if_neg hp] at h
        exact List.mem_cons_of_mem _ (ih h)

theorem lookupA_isSome_of_mem {α : Type} {k : String} {v : α}
    {l : List (String × α)} (h : (k, v) ∈ l) : (lookupA k l).isSome := by
  induction l with
  | nil => simp at h
  | cons p rest ih =>
      rcases List.mem_cons.mp h with h1 | h2
      · subst h1
        simp [lookupA]
      · by_cases hp : p.1 = k
        · simp [lookupA, hp]
        · simp [lookupA, hp, ih h2]

theorem eraseA_sublist {α : Type} (k : String) (l : List (String × α)) :
    List.Sublist (eraseA k l) l := by
  induction l with
  | nil => simp [eraseA]
  | cons p rest ih =>
      by_cases h : p.1 = k
      · simp only [eraseA, h, if_pos]
        exact ih.cons _
      · simp only [eraseA, h, if_neg, not_false_iff]
        exact ih.cons₂ _

theorem keys_setA_sub {α : Type} (k : String) (v : α) (l : List (String × α)) :
    ∀ k' ∈ (setA k v l).map Prod.fst, k' = k ∨ k' ∈ l.map Prod.fst := by
  induction l with
  | nil => simp [setA]
  | cons p rest ih =>
      by_cases h : p.1 = k
      · intro k' hk'
        simp only [setA, h, if_pos, List.map_cons, List.mem_cons] at hk' ⊢
        rcases hk' with h1 | h2
        · exact Or.inl h1
        · exact Or.inr (Or.inr h2)
      · intro k' hk'
        simp only [setA, h, if_neg, not_false_iff, List.map_cons, List.mem_cons] at hk' ⊢
        rcases hk' with h1 | h2
        · exact Or.inr (Or.inl h1)
        · rcases ih k' h2 with h3 | h4
          · exact Or.inl h3
          · exact Or.inr (Or.inr h4)

theorem nodupKeys_setA {α : Type} (k : String) (v : α) {l : List (String × α)}
    (h : (l.map Prod.fst).Nodup) : ((setA k v l).map Prod.fst).Nodup := by
  induction l with
  | nil => simp [setA]
  | cons p rest ih =>
      simp only [List.map_cons, List.nodup_cons] at h
      by_cases hp : p.1 = k
      · simp only [setA, hp, if_pos, List.map_cons, List.nodup_cons]
        exact ⟨by simpa [hp] using h.1, h.2⟩
      · simp only [setA, hp, if_neg, not_false_iff, List.map_cons, List.nodup_cons]
        refine ⟨?_, ih h.2⟩
        intro hmem
        rcases keys_setA_sub k v rest p.1 hmem with h1 | h2
        · exact hp h1
        · exact h.1 h2

theorem nodupKeys_eraseA {α : Type} (k : String) {l : List (String × α)}
    (h : (l.map Prod.fst).Nodup) : ((eraseA k l).map Prod.fst).Nodup :=
  ((eraseA_sublist k l).map Prod.fst).nodup h

theorem keys_filterMap_sublist {α β : Type}
    (f : (String × α) → Option (String × β))
    (hf : ∀ p q, f p = some q → q.1 = p.1) (l : List (String × α)) :
    List.Sublist ((l.filterMap f).map Prod.fst) (l.map Prod.fst) := by
  induction l with
  | nil => simp
  | cons p rest ih =>
      cases hfp : f p with
      | none =>
          simp only [List.filterMap_cons, hfp, List.map_cons]
          exact List.Sublist.cons p.1 ih
      | some q =>
          have hq : q.1 = p.1 := hf p q hfp
          simp only [List.filterMap_cons, hfp, List.map_cons, hq]
          exact List.Sublist.cons₂ p.1 ih

theorem lookupA_not_mem {α : Type} {k : String} {l : List (String × α)}
    (h : k ∉ l.map Prod.fst) : lookupA k l = none := by
  induction l with
  | nil => simp [lookupA]
  | cons p rest ih =>
      simp only [List.map_cons, List.mem_cons] at h
      push_neg at h
      have hp : ¬ p.1 = k := fun hh => h.1 hh.symm
      simp [lookupA, hp, ih h.2]

/-! Case analyses of the three check functions: each call falls into one
of the explicitly listed branches of the source. -/

theorem checkUserLimit_cases (rl : RateLimiter) (u : String) (n : Int) :
    (minuteQuotaFor rl.config rl.premiumUsers u ≤ recentMinuteCount rl u n ∧
       (3 : ℚ) ≤ (userDataOf rl u).violations + 1 ∧
       checkUserLimit rl u n =
         (⟨false, some .temp_ban_applied, some ((rl.config.tempBanDuration : ℚ) / 1000), none⟩,
          { rl with
              userLimits := setA u ⟨prunedRequests rl u n, (userDataOf rl u).violations + 1⟩ rl.userLimits,
              tempBans := setA u (n + (rl.config.tempBanDuration : Int)) rl.tempBans }))
  ∨ (minuteQuotaFor rl.config rl.premiumUsers u ≤ recentMinuteCount rl u n ∧
       (userDataOf rl u).violations + 1 < 3 ∧
       checkUserLimit rl u n =
         (⟨false, some .minute_limit, some ((minuteRetry rl u n : Int) : ℚ),
             some ((0 : Int), (hourQuotaFor rl.config rl.premiumUsers u : Int) - (recentHourCount rl u n : Int))⟩,
          { rl with userLimits := setA u ⟨prunedRequests rl u n, (userDataOf rl u).violations + 1⟩ rl.userLimits }))
  ∨ (recentMinuteCount rl u n < minuteQuotaFor rl.config rl.premiumUsers u ∧
       hourQuotaFor rl.config rl.premiumUsers u ≤ recentHourCount rl u n ∧
       checkUserLimit rl u n =
         (⟨false, some .hour_limit, some ((hourRetry rl u n : Int) : ℚ),
             some ((minuteQuotaFor rl.config rl.premiumUsers u : Int) - (recentMinuteCount rl u n : Int), (0 : Int))⟩,
          { rl with userLimits := setA u ⟨prunedRequests rl u n, (userDataOf rl u).violations⟩ rl.userLimits }))
  ∨ (recentMinuteCount rl u n < minuteQuotaFor rl.config rl.premiumUsers u ∧
       recentHourCount rl u n < hourQuotaFor rl.config rl.premiumUsers u ∧
       checkUserLimit rl u n =
         (⟨true, none, none,
             some ((minuteQuotaFor rl.config rl.premiumUsers u : Int) - (recentMinuteCount rl u n : Int),
                   (hourQuotaFor rl.config rl.premiumUsers u : Int) - (recentHourCount rl u n : Int))⟩,
          { rl with userLimits := setA u ⟨prunedRequests rl u n, decay (userDataOf rl u).violations⟩ rl.userLimits })) := by
  unfold checkUserLimit
  simp only [recentMinuteCount, recentHourCount]
  split_ifs with h1 h2 h3
  · exact Or.inl ⟨h1, h2, rfl⟩
  · exact Or.inr (Or.inl ⟨h1, by linarith [not_le.mp h2], rfl⟩)
  · exact Or.inr (Or.inr (Or.inl ⟨not_le.mp h1, h3, rfl⟩))
  · exact Or.inr (Or.inr (Or.inr ⟨not_le.mp h1, not_le.mp h3, rfl⟩))



theorem checkGlobalLimit_cases (rl : RateLimiter) (n : Int) :
    (rl.config.globalRequestsPerMinute ≤ globalMinuteCount rl n ∧
       checkGlobalLimit rl n =
         (⟨false, some .global_minute_limit, some (60 : ℚ), none⟩,
          { rl with globalLimits := some (prunedGlobal rl n) }))
  ∨ (globalMinuteCount rl n < rl.config.globalRequestsPerMinute ∧
       rl.config.globalRequestsPerHour ≤ globalHourCount rl n ∧
       checkGlobalLimit rl n =
         (⟨false, some .global_hour_limit, some (3600 : ℚ), none⟩,
          { rl with globalLimits := some (prunedGlobal rl n) }))
  ∨ (globalMinuteCount rl n < rl.config.globalRequestsPerMinute ∧
       globalHourCount rl n < rl.config.globalRequestsPerHour ∧
       checkGlobalLimit rl n =
         (⟨true, none, none, none⟩,
          { rl with globalLimits := some (prunedGlobal rl n) })) := by
  unfold checkGlobalLimit
  simp only [globalMinuteCount, globalHourCount]
  split_ifs with h1 h2
  · exact Or.inl ⟨h1, rfl⟩
  · exact Or.inr (Or.inl ⟨not_le.mp h1, h2, rfl⟩)
  · exact Or.inr (Or.inr ⟨not_le.mp h1, not_le.mp h2, rfl⟩)

theorem checkLimits_cases (rl : RateLimiter) (u : String) (n : Int) :
    (minuteQuotaFor rl.config rl.premiumUsers u ≤ recentMinuteCount rl u n ∧
       (3 : ℚ) ≤ (userDataOf rl u).violations + 1 ∧
       checkLimits rl u n =
         (⟨false, some .temp_ban_applied, some ((rl.config.tempBanDuration : ℚ) / 1000), none⟩,
          { rl with
              userLimits := setA u ⟨prunedRequests rl u n, (userDataOf rl u).violations + 1⟩ rl.userLimits,
              tempBans := setA u (n + (rl.config.tempBanDuration : Int)) rl.tempBans }))
  ∨ (minuteQuotaFor rl.config rl.premiumUsers u ≤ recentMinuteCount rl u n ∧
       (userDataOf rl u).violations + 1 < 3 ∧
       checkLimits rl u n =
         (⟨false, some .minute_limit, some ((minuteRetry rl u n : Int) : ℚ),
             some ((0 : Int), (hourQuotaFor rl.config rl.premiumUsers u : Int) - (recentHourCount rl u n : Int))⟩,
          { rl with userLimits := setA u ⟨prunedRequests rl u n, (userDataOf rl u).violations + 1⟩ rl.userLimits }))
  ∨ (recentMinuteCount rl u n < minuteQuotaFor rl.config rl.premiumUsers u ∧
       hourQuotaFor rl.config rl.premiumUsers u ≤ recentHourCount rl u n ∧
       checkLimits rl u n =
         (⟨false, some .hour_limit, some ((hourRetry rl u n : Int) : ℚ),
             some ((minuteQuotaFor rl.config rl.premiumUsers u : Int) - (recentMinuteCount rl u n : Int), (0 : Int))⟩,
          { rl with userLimits := setA u ⟨prunedRequests rl u n, (userDataOf rl u).violations⟩ rl.userLimits }))
  ∨ (recentMinuteCount rl u n < minuteQuotaFor rl.config rl.premiumUsers u ∧
       recentHourCount rl u n < hourQuotaFor rl.config rl.premiumUsers u ∧
       ((rl.config.globalRequestsPerMinute ≤ globalMinuteCount rl n ∧
           (checkLimits rl u n).1 = ⟨false, some .global_minute_limit, some (60 : ℚ), none⟩) ∨
        (globalMinuteCount rl n < rl.config.globalRequestsPerMinute ∧
           rl.config.globalRequestsPerHour ≤ globalHourCount rl n ∧
           (checkLimits rl u n).1 = ⟨false, some .global_hour_limit, some (3600 : ℚ), none⟩)) ∧
       (checkLimits rl u n).2 =
         { rl with
             userLimits := setA u ⟨prunedRequests rl u n, decay (userDataOf rl u).violations⟩ rl.userLimits,
             globalLimits := some (prunedGlobal rl n) })
  ∨ (recentMinuteCount rl u n < minuteQuotaFor rl.config rl.premiumUsers u ∧
       recentHourCount rl u n < hourQuotaFor rl.config rl.premiumUsers u ∧
       globalMinuteCount rl n < rl.config.globalRequestsPerMinute ∧
       globalHourCount rl n < rl.config.globalRequestsPerHour ∧
       checkLimits rl u n =
         (⟨true, none, none, none⟩,
          { rl with
              userLimits := setA u ⟨prunedRequests rl u n ++ [n], decay (userDataOf rl u).violations⟩ rl.userLimits,
              globalLimits := some (prunedGlobal rl n ++ [n]) })) := by
  rcases checkUserLimit_cases rl u n with ⟨h1, h2, heq⟩ | ⟨h1, h2, heq⟩ | ⟨h1, h2, heq⟩ | ⟨h1, h2, heq⟩
  · refine Or.inl ⟨h1, h2, ?_⟩
    unfold checkLimits
    rw [heq]
    rfl
  · refine Or.inr (Or.inl ⟨h1, h2, ?_⟩)
    unfold checkLimits
    rw [heq]
    rfl
  · refine Or.inr (Or.inr (Or.inl ⟨h1, h2, ?_⟩))
    unfold checkLimits
    rw [heq]
    rfl
  · have hall : (checkUserLimit rl u n).1.allowed = true := by rw [heq]
    have hS : prunedGlobal (checkUserLimit rl u n).2 n = prunedGlobal rl n := by
      rw [heq]; rfl
    have hSm : globalMinuteCount (checkUserLimit rl u n).2 n = globalMinuteCount rl n := by
      simp [globalMinuteCount, hS]
    have hSh : globalHourCount (checkUserLimit rl u n).2 n = globalHourCount rl n := by
      simp [globalHourCount, hS]
    have hScfg : (checkUserLimit rl u n).2.config = rl.config := by rw [heq]
    have hS2 : (checkUserLimit rl u n).2 =
        { rl with userLimits := setA u ⟨prunedRequests rl u n, decay (userDataOf rl u).violations⟩ rl.userLimits } := by
      rw [heq]
    rcases checkGlobalLimit_cases (checkUserLimit rl u n).2 n with ⟨g1, geq⟩ | ⟨g1, g2, geq⟩ | ⟨g1, g2, geq⟩
    · refine Or.inr (Or.inr (Or.inr (Or.inl ⟨h1, h2, Or.inl ⟨by rwa [hSm, hScfg] at g1, ?_⟩, ?_⟩)))
      · simp [checkLimits, hall, geq]
      · simp only [checkLimits, hall, if_true, geq, hS]
        rw [if_neg (by simp), hS2]
    · refine Or.inr (Or.inr (Or.inr (Or.inl ⟨h1, h2,
        Or.inr ⟨by rwa [hSm, hScfg] at g1, by rwa [hSh, hScfg] at g2, ?_⟩, ?_⟩)))
      · simp [checkLimits, hall, geq]
      · simp only [checkLimits, hall, if_true, geq, hS]
        rw [if_neg (by simp), hS2]
    · refine Or.inr (Or.inr (Or.inr (Or.inr ⟨h1, h2,
        by rwa [hSm, hScfg] at g1, by rwa [hSh, hScfg] at g2, ?_⟩)))
      simp only [checkLimits, hall, if_true, geq, hS]
      unfold recordRequest recordGlobalRequest
      rw [hS2]
      simp [userDataOf, lookupA_setA_self, setA_setA]

theorem userDataOf_congr {rl1 rl : RateLimiter} (h : rl1.userLimits = rl.userLimits)
    (u : String) : userDataOf rl1 u = userDataOf rl u := by
  simp [userDataOf, h]

theorem prunedRequests_congr {rl1 rl : RateLimiter} (h : rl1.userLimits = rl.userLimits)
    (u : String) (n : Int) : prunedRequests rl1 u n = prunedRequests rl u n := by
  simp [prunedRequests, userDataOf_congr h]

theorem minuteRequests_congr {rl1 rl : RateLimiter} (h : rl1.userLimits = rl.userLimits)
    (u : String) (n : Int) : minuteRequests rl1 u n = minuteRequests rl u n := by
  simp [minuteRequests, prunedRequests_congr h]

theorem recentMinuteCount_congr {rl1 rl : RateLimiter} (h : rl1.userLimits = rl.userLimits)
    (u : String) (n : Int) : recentMinuteCount rl1 u n = recentMinuteCount rl u n := by
  simp [recentMinuteCount, minuteRequests_congr h]

theorem recentHourCount_congr {rl1 rl : RateLimiter} (h : rl1.userLimits = rl.userLimits)
    (u : String) (n : Int) : recentHourCount rl1 u n = recentHourCount rl u n := by
  simp [recentHourCount, prunedRequests_congr h]

theorem minuteRetry_congr {rl1 rl : RateLimiter} (h : rl1.userLimits = rl.userLimits)
    (u : String) (n : Int) : minuteRetry rl1 u n = minuteRetry rl u n := by
  simp [minuteRetry, minuteRequests_congr h]

theorem hourRetry_congr {rl1 rl : RateLimiter} (h : rl1.userLimits = rl.userLimits)
    (u : String) (n : Int) : hourRetry rl1 u n = hourRetry rl u n := by
  simp [hourRetry, prunedRequests_congr h]

theorem prunedGlobal_congr {rl1 rl : RateLimiter} (h : rl1.globalLimits = rl.globalLimits)
    (n : Int) : prunedGlobal rl1 n = prunedGlobal rl n := by
  simp [prunedGlobal, h]

theorem globalMinuteCount_congr {rl1 rl : RateLimiter} (h : rl1.globalLimits = rl.globalLimits)
    (n : Int) : globalMinuteCount rl1 n = globalMinuteCount rl n := by
  simp [globalMinuteCount, prunedGlobal_congr h]

theorem globalHourCount_congr {rl1 rl : RateLimiter} (h : rl1.globalLimits = rl.globalLimits)
    (n : Int) : globalHourCount rl1 n = globalHourCount rl n := by
  simp [globalHourCount, prunedGlobal_congr h]

theorem checkRateLimit_cases (rl : RateLimiter) (u : String) (n : Int) :
    (∃ e, lookupA u rl.tempBans = some e ∧ n < e ∧
       checkRateLimit rl u n =
         (⟨false, some .temp_ban, some ((⌈((e - n : ℤ) : ℚ) / 1000⌉ : ℤ) : ℚ), none⟩, rl))
  ∨ (∃ rl1, ((rl1 = rl ∧ lookupA u rl.tempBans = none) ∨
        rl1 = { rl with tempBans := eraseA u rl.tempBans }) ∧
       rl1.userLimits = rl.userLimits ∧ rl1.globalLimits = rl.globalLimits ∧
       rl1.config = rl.config ∧ rl1.premiumUsers = rl.premiumUsers ∧
       checkRateLimit rl u n = checkLimits rl1 u n) := by
  unfold checkRateLimit
  cases hlb : lookupA u rl.tempBans with
  | none =>
      exact Or.inr ⟨rl, Or.inl ⟨rfl, rfl⟩, rfl, rfl, rfl, rfl, rfl⟩
  | some e =>
      by_cases hn : n < e
      · exact Or.inl ⟨e, rfl, hn, by simp [hn]⟩
      · refine Or.inr ⟨{ rl with tempBans := eraseA u rl.tempBans }, Or.inr rfl,
          rfl, rfl, rfl, rfl, by simp [hn]⟩


/-! Claim theorems. -/

/-- C3: an active temp ban (expiry > now) denies with reason temp_ban and
retryAfter = ceil((expiry - now)/1000) regardless of quota state; an expired
ban entry is deleted and evaluation proceeds under the quota checks. -/
theorem C3_temp_ban_check (rl : RateLimiter) (u : String) (n e : Int)
    (h : lookupA u rl.tempBans = some e) :
    (n < e → checkRateLimit rl u n =
       (⟨false, some .temp_ban, some ((⌈((e - n : ℤ) : ℚ) / 1000⌉ : ℤ) : ℚ), none⟩, rl))
  ∧ (e ≤ n →
       lookupA u ({ rl with tempBans := eraseA u rl.tempBans }).tempBans = none ∧
       checkRateLimit rl u n =
         checkLimits { rl with tempBans := eraseA u rl.tempBans } u n) := by
  constructor
  · intro hn
    unfold checkRateLimit
    rw [h]
    simp [hn]
  · intro hn
    have hn' : ¬ n < e := not_lt.mpr hn
    refine ⟨lookupA_eraseA_self u rl.tempBans, ?_⟩
    unfold checkRateLimit
    rw [h]
    simp [hn']

theorem C3_witness :
    checkRateLimit rlBanned "a" 0 =
      (⟨false, some .temp_ban, some ((⌈((100 - 0 : ℤ) : ℚ) / 1000⌉ : ℤ) : ℚ), none⟩, rlBanned) :=
  (C3_temp_ban_check rlBanned "a" 0 100 rfl).1 (by decide)

/-- C4: a trailing-minute count at or above the tier minute quota increments
the stored violation count by exactly 1, and when the incremented count
reaches 3 a temp ban with expiry now + banDuration is installed and the call
is denied with reason temp_ban_applied and retryAfter = banDuration/1000. -/
theorem C4_minute_breach (rl : RateLimiter) (u : String) (n : Int)
    (h : minuteQuotaFor rl.config rl.premiumUsers u ≤ recentMinuteCount rl u n) :
    lookupA u (checkUserLimit rl u n).2.userLimits =
      some ⟨prunedRequests rl u n, (userDataOf rl u).violations + 1⟩
  ∧ ((3 : ℚ) ≤ (userDataOf rl u).violations + 1 →
      (checkUserLimit rl u n).1 =
        ⟨false, some .temp_ban_applied, some ((rl.config.tempBanDuration : ℚ) / 1000), none⟩
      ∧ lookupA u (checkUserLimit rl u n).2.tempBans =
          some (n + (rl.config.tempBanDuration : Int))) := by
  rcases checkUserLimit_cases rl u n with ⟨h1, h2, heq⟩ | ⟨h1, h2, heq⟩ | ⟨h1, h2, heq⟩ | ⟨h1, h2, heq⟩
  · rw [heq]
    exact ⟨by simp [lookupA_setA_self], fun _ => ⟨rfl, by simp [lookupA_setA_self]⟩⟩
  · rw [heq]
    exact ⟨by simp [lookupA_setA_self], fun h3 => absurd h3 (not_le.mpr h2)⟩
  · exact absurd h (not_le.mpr h1)
  · exact absurd h (not_le.mpr h1)

theorem C4_witness :
    prunedRequests rlBreach "a" 2 = [0, 1]
  ∧ (userDataOf rlBreach "a").violations + 1 = 3
  ∧ lookupA "a" (checkUserLimit rlBreach "a" 2).2.userLimits =
      some ⟨prunedRequests rlBreach "a" 2, (userDataOf rlBreach "a").violations + 1⟩
  ∧ (checkUserLimit rlBreach "a" 2).1 =
      ⟨false, some .temp_ban_applied, some ((rlBreach.config.tempBanDuration : ℚ) / 1000), none⟩
  ∧ lookupA "a" (checkUserLimit rlBreach "a" 2).2.tempBans =
      some (2 + (rlBreach.config.tempBanDuration : Int)) := by
  have h := C4_minute_breach rlBreach "a" 2 (by decide)
  have h2 := h.2 (by norm_num [userDataOf, rlBreach, lookupA])
  exact ⟨by decide, by norm_num [userDataOf, rlBreach, lookupA], h.1, h2.1, h2.2⟩

/-- C5: a minute-limit denial (violation count still below 3) returns
retryAfter = max(1, 60 - floor((now - latest)/1000)) over the most recent
trailing-minute request, an hour-limit denial returns
retryAfter = max(1, 3600 - floor((now - oldest)/1000)) over the oldest
trailing-hour request, and both hints are at least 1. -/
theorem C5_retry_hints (rl : RateLimiter) (u : String) (n : Int) :
    (∀ m : Int, minuteQuotaFor rl.config rl.premiumUsers u ≤ recentMinuteCount rl u n →
       (userDataOf rl u).violations + 1 < 3 →
       (minuteRequests rl u n).max? = some m →
       (checkUserLimit rl u n).1.reason = some .minute_limit ∧
       (checkUserLimit rl u n).1.retryAfter = some ((max 1 (60 - (n - m).fdiv 1000) : ℤ) : ℚ) ∧
       (1 : ℤ) ≤ max 1 (60 - (n - m).fdiv 1000))
  ∧ (∀ m : Int, recentMinuteCount rl u n < minuteQuotaFor rl.config rl.premiumUsers u →
       hourQuotaFor rl.config rl.premiumUsers u ≤ recentHourCount rl u n →
       (prunedRequests rl u n).min? = some m →
       (checkUserLimit rl u n).1.reason = some .hour_limit ∧
       (checkUserLimit rl u n).1.retryAfter = some ((max 1 (3600 - (n - m).fdiv 1000) : ℤ) : ℚ) ∧
       (1 : ℤ) ≤ max 1 (3600 - (n - m).fdiv 1000)) := by
  constructor
  · intro m hq hv hmax
    rcases checkUserLimit_cases rl u n with ⟨h1, h2, heq⟩ | ⟨h1, h2, heq⟩ | ⟨h1, h2, heq⟩ | ⟨h1, h2, heq⟩
    · exact absurd h2 (not_le.mpr hv)
    · rw [heq]
      refine ⟨rfl, ?_, le_max_left _ _⟩
      simp only [minuteRetry, hmax, max_comm]
    · exact absurd hq (not_le.mpr h1)
    · exact absurd hq (not_le.mpr h1)
  · intro m hq hh hmin
    rcases checkUserLimit_cases rl u n with ⟨h1, h2, heq⟩ | ⟨h1, h2, heq⟩ | ⟨h1, h2, heq⟩ | ⟨h1, h2, heq⟩
    · exact absurd h1 (not_le.mpr hq)
    · exact absurd h1 (not_le.mpr hq)
    · rw [heq]
      refine ⟨rfl, ?_, le_max_left _ _⟩
      simp only [hourRetry, hmin, max_comm]
    · exact absurd hh (not_le.mpr h2)

theorem C5_witness :
    ((checkUserLimit rlBreachMild "a" 2).1.reason = some .minute_limit ∧
     (checkUserLimit rlBreachMild "a" 2).1.retryAfter =
       some ((max 1 (60 - ((2 : Int) - 1).fdiv 1000) : ℤ) : ℚ) ∧
     (1 : ℤ) ≤ max 1 (60 - ((2 : Int) - 1).fdiv 1000))
  ∧ ((checkUserLimit rlHourFull "a" 100000).1.reason = some .hour_limit ∧
     (checkUserLimit rlHourFull "a" 100000).1.retryAfter =
       some ((max 1 (3600 - ((100000 : Int) - 0).fdiv 1000) : ℤ) : ℚ) ∧
     (1 : ℤ) ≤ max 1 (3600 - ((100000 : Int) - 0).fdiv 1000)) :=
  ⟨(C5_retry_hints rlBreachMild "a" 2).1 1 (by decide)
     (by norm_num [userDataOf, rlBreachMild, lookupA]) (by decide),
   (C5_retry_hints rlHourFull "a" 100000).2 0 (by decide) (by decide) (by decide)⟩

/-- C2: the claim as stated fails — the final Allowed decision of
checkRateLimit is the bare allowed:true object with no remaining field, as
the fresh-limiter call below shows. -/
theorem C2_counterexample :
    (checkRateLimit (RateLimiter.init defaultConfig []) "a" 0).1.allowed = true
  ∧ (checkRateLimit (RateLimiter.init defaultConfig []) "a" 0).1.remaining = none := by
  constructor
  · rfl
  · rfl

/-- C2 (amended): on an all-checks-pass call the inner checkUserLimit result
carries remaining = tier quotas minus the pre-admission trailing counts, but
the Allowed decision finally returned by checkRateLimit omits remaining. -/
theorem C2_remaining_amended (rl : RateLimiter) (u : String) (n : Int)
    (hb : lookupA u rl.tempBans = none)
    (hu : (checkUserLimit rl u n).1.allowed = true)
    (hg : (checkGlobalLimit (checkUserLimit rl u n).2 n).1.allowed = true) :
    (checkUserLimit rl u n).1.remaining =
      some ((minuteQuotaFor rl.config rl.premiumUsers u : Int) - (recentMinuteCount rl u n : Int),
            (hourQuotaFor rl.config rl.premiumUsers u : Int) - (recentHourCount rl u n : Int))
  ∧ (checkRateLimit rl u n).1 = ⟨true, none, none, none⟩ := by
  constructor
  · rcases checkUserLimit_cases rl u n with ⟨h1, h2, heq⟩ | ⟨h1, h2, heq⟩ | ⟨h1, h2, heq⟩ | ⟨h1, h2, heq⟩
    · rw [heq] at hu
      exact absurd hu (by simp)
    · rw [heq] at hu
      exact absurd hu (by simp)
    · rw [heq] at hu
      exact absurd hu (by simp)
    · rw [heq]
  · unfold checkRateLimit
    rw [hb]
    unfold checkLimits
    simp only [hu, if_true, hg]

theorem C2_witness :
    (checkUserLimit (RateLimiter.init defaultConfig []) "a" 0).1.remaining =
      some ((minuteQuotaFor defaultConfig [] "a" : Int)
              - (recentMinuteCount (RateLimiter.init defaultConfig []) "a" 0 : Int),
            (hourQuotaFor defaultConfig [] "a" : Int)
              - (recentHourCount (RateLimiter.init defaultConfig []) "a" 0 : Int))
  ∧ (checkRateLimit (RateLimiter.init defaultConfig []) "a" 0).1 = ⟨true, none, none, none⟩ :=
  C2_remaining_amended (RateLimiter.init defaultConfig []) "a" 0 rfl rfl rfl

/-- C9: a request denied by a global limit still mutates the caller record:
caller "a" (violations 1, empty history) is denied global_minute_limit yet
its violation count decays to 0.9, and a first-time caller "b" gets a fresh
record created by the same denied call. -/
theorem C9_denied_still_decays :
    (checkRateLimit rlGlobalFull "a" 0).1.allowed = false
  ∧ (checkRateLimit rlGlobalFull "a" 0).1.reason = some .global_minute_limit
  ∧ lookupA "a" (checkRateLimit rlGlobalFull "a" 0).2.userLimits = some ⟨[], 9/10⟩
  ∧ lookupA "b" rlGlobalFull.userLimits = none
  ∧ lookupA "b" (checkRateLimit rlGlobalFull "b" 0).2.userLimits = some ⟨[], 0⟩
  ∧ (checkRateLimit rlGlobalFull "b" 0).1.allowed = false := by
  refine ⟨rfl, rfl, ?_, rfl, ?_, rfl⟩
  · show some (⟨[], decay 1⟩ : UserData) = some ⟨[], 9/10⟩
    norm_num [decay]
  · rfl

theorem filter_self_idem {α : Type} (p : α → Bool) (l : List α) :
    (l.filter p).filter p = l.filter p := by
  induction l with
  | nil => rfl
  | cons a rest ih =>
      by_cases h : p a
      · simp [List.filter_cons, h, ih]
      · simp [List.filter_cons, h, ih]

theorem sweepUser_idem (c : Int) (p q : String × UserData)
    (h : sweepUser c p = some q) : sweepUser c q = some q := by
  unfold sweepUser at h ⊢
  by_cases hc : p.2.requests.filter (fun t => decide (c < t)) = [] ∧ p.2.violations = 0
  · simp [hc] at h
  · simp only [hc, if_neg, not_false_iff, Option.some.injEq] at h
    subst h
    dsimp only
    simp only [filter_self_idem]
    rw [if_neg hc]

/-- C8: the sweep is idempotent; it deletes a caller record exactly when the
pruned history is empty with violation count exactly 0, keeping survivors as
their pruned records; it prunes the global record in place; and it removes
exactly the temp bans whose expiry has passed. -/
theorem C8_sweep (rl : RateLimiter) (now : Int) :
    cleanup (cleanup rl now) now = cleanup rl now
  ∧ (∀ (u : String) (r' : UserData),
       (u, r') ∈ (cleanup rl now).userLimits ↔
       ∃ r : UserData, (u, r) ∈ rl.userLimits ∧
         r' = ⟨r.requests.filter (fun t => decide (now - 3600000 < t)), r.violations⟩ ∧
         ¬ (r.requests.filter (fun t => decide (now - 3600000 < t)) = [] ∧ r.violations = 0))
  ∧ (cleanup rl now).globalLimits =
      rl.globalLimits.map (fun l => l.filter (fun t => decide (now - 3600000 < t)))
  ∧ (∀ (u : String) (e : Int),
       (u, e) ∈ (cleanup rl now).tempBans ↔ (u, e) ∈ rl.tempBans ∧ ¬ now > e) := by
  refine ⟨?_, ?_, rfl, ?_⟩
  · unfold cleanup
    simp only [RateLimiter.mk.injEq, and_true, true_and, eq_self_iff_true]
    refine ⟨?_, ?_, ?_⟩
    · rw [List.filterMap_filterMap]
      apply List.filterMap_congr
      intro p _
      cases h : sweepUser (now - 3600000) p with
      | none => rfl
      | some q => simpa [h] using sweepUser_idem _ p q h
    · cases rl.globalLimits with
      | none => rfl
      | some l => simp [filter_self_idem]
    · rw [List.filter_filter]
      apply List.filter_congr
      intro p _
      cases h : decide (¬ now > p.2) <;> simp [h]
  · intro u r'
    simp only [cleanup, List.mem_filterMap]
    constructor
    · rintro ⟨p, hp, hf⟩
      unfold sweepUser at hf
      by_cases hc : p.2.requests.filter (fun t => decide (now - 3600000 < t)) = [] ∧ p.2.violations = 0
      · simp [hc] at hf
      · simp only [hc, if_neg, not_false_iff, Option.some.injEq, Prod.mk.injEq] at hf
        exact ⟨p.2, by rw [← hf.1]; exact hp, hf.2.symm, hc⟩
    · rintro ⟨r, hr, hval, hcond⟩
      refine ⟨(u, r), hr, ?_⟩
      unfold sweepUser
      simp only [hcond, if_neg, not_false_iff]
      rw [hval]
  · intro u e
    simp only [cleanup, List.mem_filter, decide_eq_true_eq]

theorem prunedRequests_sublist (rl : RateLimiter) (u : String) (n : Int) :
    List.Sublist (prunedRequests rl u n) (ReqOf rl u) :=
  List.filter_sublist _

theorem prunedGlobal_sublist (rl : RateLimiter) (n : Int) :
    List.Sublist (prunedGlobal rl n) (ReqG rl) :=
  List.filter_sublist _

theorem ReqOf_setA_self {S : RateLimiter} {u : String} {d : UserData}
    {L : List (String × UserData)} (h : S.userLimits = setA u d L) :
    ReqOf S u = d.requests := by
  simp [ReqOf, userDataOf, h, lookupA_setA_self]

theorem ReqOf_setA_ne {S : RateLimiter} {u w : String} {d : UserData}
    {L : List (String × UserData)} (h : S.userLimits = setA u d L) (hw : w ≠ u)
    {S0 : RateLimiter} (h0 : S0.userLimits = L) :
    ReqOf S w = ReqOf S0 w := by
  simp [ReqOf, userDataOf, h, h0, lookupA_setA_ne hw]

/-- C6: a denied checkRateLimit call appends no timestamp to any caller
ledger nor to the global ledger (every ledger list of the resulting state is
a sublist of what it was); an allowed call appends the current instant to
both the caller's and the global ledger, leaving other callers untouched. -/
theorem C6_record_iff_allowed (rl : RateLimiter) (u : String) (n : Int) :
    ((checkRateLimit rl u n).1.allowed = false →
       (∀ w, List.Sublist (ReqOf (checkRateLimit rl u n).2 w) (ReqOf rl w)) ∧
       List.Sublist (ReqG (checkRateLimit rl u n).2) (ReqG rl))
  ∧ ((checkRateLimit rl u n).1.allowed = true →
       ReqOf (checkRateLimit rl u n).2 u = prunedRequests rl u n ++ [n] ∧
       ReqG (checkRateLimit rl u n).2 = prunedGlobal rl n ++ [n] ∧
       (∀ w, w ≠ u → ReqOf (checkRateLimit rl u n).2 w = ReqOf rl w)) := by
  rcases checkRateLimit_cases rl u n with ⟨e, hlb, hne, heq⟩ |
    ⟨rl1, hcase, hUL, hGL, hcfg, hprem, heq⟩
  · rw [heq]
    exact ⟨fun _ => ⟨fun w => List.Sublist.refl _, List.Sublist.refl _⟩,
           fun hall => absurd hall (by simp)⟩
  · have hpr : ∀ w, prunedRequests rl1 w n = prunedRequests rl w n :=
      fun w => prunedRequests_congr hUL w n
    have hpg : prunedGlobal rl1 n = prunedGlobal rl n := prunedGlobal_congr hGL n
    have hReq : ∀ w, ReqOf rl1 w = ReqOf rl w := by
      intro w
      simp [ReqOf, userDataOf_congr hUL w]
    have hReqG : ReqG rl1 = ReqG rl := by simp [ReqG, hGL]
    rcases checkLimits_cases rl1 u n with ⟨h1, h2, heq2⟩ | ⟨h1, h2, heq2⟩ | ⟨h1, h2, heq2⟩ |
      ⟨h1, h2, hg, heq2⟩ | ⟨h1, h2, h3, h4, heq2⟩
    · rw [heq, heq2]
      refine ⟨fun _ => ⟨?_, ?_⟩, fun hall => absurd hall (by simp)⟩
      · intro w
        by_cases hw : w = u
        · subst hw
          rw [ReqOf_setA_self (by rfl), hpr w]
          exact prunedRequests_sublist rl w n
        · rw [ReqOf_setA_ne (by rfl) hw (rfl : rl1.userLimits = rl1.userLimits), hReq w]
      · show List.Sublist (ReqG rl1) (ReqG rl)
        rw [hReqG]
    · rw [heq, heq2]
      refine ⟨fun _ => ⟨?_, ?_⟩, fun hall => absurd hall (by simp)⟩
      · intro w
        by_cases hw : w = u
        · subst hw
          rw [ReqOf_setA_self (by rfl), hpr w]
          exact prunedRequests_sublist rl w n
        · rw [ReqOf_setA_ne (by rfl) hw (rfl : rl1.userLimits = rl1.userLimits), hReq w]
      · show List.Sublist (ReqG rl1) (ReqG rl)
        rw [hReqG]
    · rw [heq, heq2]
      refine ⟨fun _ => ⟨?_, ?_⟩, fun hall => absurd hall (by simp)⟩
      · intro w
        by_cases hw : w = u
        · subst hw
          rw [ReqOf_setA_self (by rfl), hpr w]
          exact prunedRequests_sublist rl w n
        · rw [ReqOf_setA_ne (by rfl) hw (rfl : rl1.userLimits = rl1.userLimits), hReq w]
      · show List.Sublist (ReqG rl1) (ReqG rl)
        rw [hReqG]
    · have hallow : (checkLimits rl1 u n).1.allowed = false := by
        rcases hg with ⟨_, hd⟩ | ⟨_, _, hd⟩ <;> rw [hd]
      rw [heq]
      refine ⟨fun _ => ⟨?_, ?_⟩, fun hall => absurd hall (by rw [hallow]; simp)⟩
      · intro w
        rw [heq2]
        by_cases hw : w = u
        · subst hw
          rw [ReqOf_setA_self (by rfl), hpr w]
          exact prunedRequests_sublist rl w n
        · rw [ReqOf_setA_ne (by rfl) hw (rfl : rl1.userLimits = rl1.userLimits), hReq w]
      · rw [heq2]
        show List.Sublist (prunedGlobal rl1 n) (ReqG rl)
        rw [hpg]
        exact prunedGlobal_sublist rl n
    · rw [heq, heq2]
      refine ⟨fun hden => absurd hden (by simp), fun _ => ⟨?_, ?_, ?_⟩⟩
      · rw [ReqOf_setA_self (by rfl), hpr u]
      · show prunedGlobal rl1 n ++ [n] = prunedGlobal rl n ++ [n]
        rw [hpg]
      · intro w hw
        rw [ReqOf_setA_ne (by rfl) hw (rfl : rl1.userLimits = rl1.userLimits), hReq w]

theorem C6_witness :
    ((∀ w, List.Sublist (ReqOf (checkRateLimit rlGlobalFull "a" 0).2 w) (ReqOf rlGlobalFull w)) ∧
       List.Sublist (ReqG (checkRateLimit rlGlobalFull "a" 0).2) (ReqG rlGlobalFull))
  ∧ (ReqOf (checkRateLimit (RateLimiter.init defaultConfig []) "a" 0).2 "a" =
       prunedRequests (RateLimiter.init defaultConfig []) "a" 0 ++ [0] ∧
     ReqG (checkRateLimit (RateLimiter.init defaultConfig []) "a" 0).2 =
       prunedGlobal (RateLimiter.init defaultConfig []) 0 ++ [0] ∧
     (∀ w, w ≠ "a" → ReqOf (checkRateLimit (RateLimiter.init defaultConfig []) "a" 0).2 w =
       ReqOf (RateLimiter.init defaultConfig []) w)) :=
  ⟨(C6_record_iff_allowed rlGlobalFull "a" 0).1 rfl,
   (C6_record_iff_allowed (RateLimiter.init defaultConfig []) "a" 0).2 rfl⟩

theorem mem_setA {α : Type} {p : String × α} {k : String} {v : α}
    {l : List (String × α)} (h : p ∈ setA k v l) : p = (k, v) ∨ p ∈ l := by
  induction l with
  | nil => simpa [setA] using h
  | cons q rest ih =>
      by_cases hq : q.1 = k
      · simp only [setA, hq, if_pos] at h
        rcases List.mem_cons.mp h with h1 | h2
        · exact Or.inl h1
        · exact Or.inr (List.mem_cons_of_mem _ h2)
      · simp only [setA, hq, if_neg, not_false_iff] at h
        rcases List.mem_cons.mp h with h1 | h2
        · exact Or.inr (by rw [h1]; exact List.mem_cons_self _ _)
        · rcases ih h2 with h3 | h4
          · exact Or.inl h3
          · exact Or.inr (List.mem_cons_of_mem _ h4)

theorem decay_nonneg {v : ℚ} (h : 0 ≤ v) : 0 ≤ decay v := by
  unfold decay
  split_ifs with h1
  · exact le_max_left _ _
  · exact h

theorem decay_le (v : ℚ) : decay v ≤ v := by
  unfold decay
  split_ifs with h1
  · exact max_le (le_of_lt h1) (by linarith)
  · exact le_refl v

theorem sub_le_decay (v : ℚ) : v - 1/10 ≤ decay v := by
  unfold decay
  split_ifs with h1
  · exact le_max_right _ _
  · linarith

theorem violOf_nonneg_of_entries {rl : RateLimiter}
    (h : ∀ p ∈ rl.userLimits, 0 ≤ p.2.violations) (u : String) : 0 ≤ ViolOf rl u := by
  unfold ViolOf userDataOf
  cases hl : lookupA u rl.userLimits with
  | none => simp
  | some r => simpa using h (u, r) (lookupA_mem hl)

theorem ViolOf_congr {rl1 rl : RateLimiter} (h : rl1.userLimits = rl.userLimits)
    (u : String) : ViolOf rl1 u = ViolOf rl u := by
  simp [ViolOf, userDataOf_congr h]

theorem entries_check (rl : RateLimiter) (u : String) (n : Int)
    (h : ∀ p ∈ rl.userLimits, 0 ≤ p.2.violations) :
    ∀ p ∈ (checkRateLimit rl u n).2.userLimits, 0 ≤ p.2.violations := by
  have hv : 0 ≤ (userDataOf rl u).violations := violOf_nonneg_of_entries h u
  rcases checkRateLimit_cases rl u n with ⟨e, hlb, hne, heq⟩ |
    ⟨rl1, hcase, hUL, hGL, hcfg, hprem, heq⟩
  · rw [heq]
    exact h
  · have hv1 : (userDataOf rl1 u).violations = (userDataOf rl u).violations := by
      rw [userDataOf_congr hUL]
    have key : ∀ (d : UserData), 0 ≤ d.violations →
        ∀ p ∈ setA u d rl1.userLimits, 0 ≤ p.2.violations := by
      intro d hd p hp
      rcases mem_setA hp with h1 | h2
      · rw [h1]
        exact hd
      · rw [hUL] at h2
        exact h p h2
    rcases checkLimits_cases rl1 u n with ⟨h1, h2, heq2⟩ | ⟨h1, h2, heq2⟩ | ⟨h1, h2, heq2⟩ |
      ⟨h1, h2, hg, heq2⟩ | ⟨h1, h2, h3, h4, heq2⟩
    · rw [heq, heq2]
      exact key _ (by simpa [hv1] using by linarith)
    · rw [heq, heq2]
      exact key _ (by simpa [hv1] using by linarith)
    · rw [heq, heq2]
      exact key _ (by simpa [hv1] using hv)
    · rw [heq]
      intro p hp
      rw [heq2] at hp
      exact key _ (by simpa [hv1] using decay_nonneg hv) p hp
    · rw [heq, heq2]
      exact key _ (by simpa [hv1] using decay_nonneg hv)

theorem entries_applyOp (rl : RateLimiter) (op : OpEvent)
    (h : ∀ p ∈ rl.userLimits, 0 ≤ p.2.violations) :
    ∀ p ∈ (applyOp rl op).userLimits, 0 ≤ p.2.violations := by
  cases op with
  | check u n => exact entries_check rl u n h
  | sweep n =>
      intro p hp
      simp only [applyOp, cleanup, List.mem_filterMap] at hp
      obtain ⟨q, hq, hf⟩ := hp
      unfold sweepUser at hf
      by_cases hc : q.2.requests.filter (fun t => decide (n - 3600000 < t)) = [] ∧
          q.2.violations = 0
      · simp [hc] at hf
      · simp only [hc, if_neg, not_false_iff, Option.some.injEq] at hf
        rw [← hf]
        exact h q hq
  | addPrem u => exact h
  | removePrem u => exact h
  | clearUser u =>
      intro p hp
      exact h p ((eraseA_sublist u rl.userLimits).subset hp)

theorem entries_reachable {cfg : Config} {prem : List String} {rl : RateLimiter}
    (h : Reachable cfg prem rl) : ∀ p ∈ rl.userLimits, 0 ≤ p.2.violations := by
  obtain ⟨ops, rfl⟩ := h
  have : ∀ (ops : List OpEvent) (s : RateLimiter),
      (∀ p ∈ s.userLimits, 0 ≤ p.2.violations) →
      ∀ p ∈ (ops.foldl applyOp s).userLimits, 0 ≤ p.2.violations := by
    intro ops
    induction ops with
    | nil => exact fun s hs => hs
    | cons op rest ih => exact fun s hs => ih (applyOp s op) (entries_applyOp s op hs)
  exact this ops (RateLimiter.init cfg prem) (by simp [RateLimiter.init])

theorem ViolOf_allowed (rl : RateLimiter) (u : String) (n : Int)
    (h : (checkRateLimit rl u n).1.allowed = true) :
    ViolOf (checkRateLimit rl u n).2 u = decay (ViolOf rl u) := by
  rcases checkRateLimit_cases rl u n with ⟨e, hlb, hne, heq⟩ |
    ⟨rl1, hcase, hUL, hGL, hcfg, hprem, heq⟩
  · rw [heq] at h
    exact absurd h (by simp)
  · rcases checkLimits_cases rl1 u n with ⟨h1, h2, heq2⟩ | ⟨h1, h2, heq2⟩ | ⟨h1, h2, heq2⟩ |
      ⟨h1, h2, hg, heq2⟩ | ⟨h1, h2, h3, h4, heq2⟩
    · rw [heq, heq2] at h
      exact absurd h (by simp)
    · rw [heq, heq2] at h
      exact absurd h (by simp)
    · rw [heq, heq2] at h
      exact absurd h (by simp)
    · have hallow : (checkLimits rl1 u n).1.allowed = false := by
        rcases hg with ⟨_, hd⟩ | ⟨_, _, hd⟩ <;> rw [hd]
      rw [heq, hallow] at h
      exact absurd h (by simp)
    · rw [heq, heq2]
      simp only [ViolOf, userDataOf, hUL, lookupA_setA_self, Option.getD_some]

theorem run_decay_bounds (u : String) : ∀ (ts : List Int) (rl : RateLimiter),
    AllAllowed rl u ts →
    (0 ≤ ViolOf rl u → 0 ≤ ViolOf (runChecksFor rl u ts) u) ∧
    ViolOf rl u - (ts.length : ℚ) / 10 ≤ ViolOf (runChecksFor rl u ts) u ∧
    ViolOf (runChecksFor rl u ts) u ≤ ViolOf rl u := by
  intro ts
  induction ts with
  | nil =>
      intro rl _
      exact ⟨fun h => h, by simp [runChecksFor], by simp [runChecksFor]⟩
  | cons t rest ih =>
      intro rl hall
      obtain ⟨h1, h2⟩ := hall
      have hdec := ViolOf_allowed rl u t h1
      have hrec := ih (checkRateLimit rl u t).2 h2
      have hrun : runChecksFor rl u (t :: rest) = runChecksFor (checkRateLimit rl u t).2 u rest := rfl
      rw [hrun]
      have hlow := sub_le_decay (ViolOf rl u)
      have hup := decay_le (ViolOf rl u)
      refine ⟨fun h0 => hrec.1 (by rw [hdec]; exact decay_nonneg h0), ?_, ?_⟩
      · have := hrec.2.1
        rw [hdec] at this
        have hlen : ((t :: rest).length : ℚ) = (rest.length : ℚ) + 1 := by
          push_cast [List.length_cons]
          ring
        rw [hlen]
        linarith
      · have := hrec.2.2
        rw [hdec] at this
        linarith

/-- C7: every reachable state has nonnegative violation counts for every
caller, and an uninterrupted run of N admitted requests by a caller lowers
that caller's violation count by at most min(V, N/10), never below 0. -/
theorem C7_viol_nonneg_and_decay :
    (∀ (cfg : Config) (prem : List String) (rl : RateLimiter),
       Reachable cfg prem rl → ∀ u, 0 ≤ ViolOf rl u)
  ∧ (∀ (rl : RateLimiter) (u : String) (ts : List Int),
       0 ≤ ViolOf rl u → AllAllowed rl u ts →
       0 ≤ ViolOf (runChecksFor rl u ts) u ∧
       ViolOf rl u - ViolOf (runChecksFor rl u ts) u ≤
         min (ViolOf rl u) ((ts.length : ℚ) / 10)) := by
  constructor
  · intro cfg prem rl h u
    exact violOf_nonneg_of_entries (entries_reachable h) u
  · intro rl u ts h0 hall
    have h := run_decay_bounds u ts rl hall
    refine ⟨h.1 h0, le_min ?_ ?_⟩
    · have := h.2.2
      have hnn := h.1 h0
      linarith
    · have := h.2.1
      linarith

theorem C7_witness :
    (0 ≤ ViolOf (RateLimiter.init defaultConfig []) "a")
  ∧ (0 ≤ ViolOf (runChecksFor (RateLimiter.init defaultConfig []) "a" [0]) "a" ∧
     ViolOf (RateLimiter.init defaultConfig []) "a" -
       ViolOf (runChecksFor (RateLimiter.init defaultConfig []) "a" [0]) "a" ≤
       min (ViolOf (RateLimiter.init defaultConfig []) "a") (((([0] : List Int)).length : ℚ) / 10)) :=
  ⟨C7_viol_nonneg_and_decay.1 defaultConfig [] (RateLimiter.init defaultConfig []) ⟨[], rfl⟩ "a",
   C7_viol_nonneg_and_decay.2 (RateLimiter.init defaultConfig []) "a" [0]
     (by norm_num [ViolOf, userDataOf, lookupA, RateLimiter.init]) ⟨rfl, trivial⟩⟩

theorem sweepUser_key {c : Int} {p q : String × UserData}
    (h : sweepUser c p = some q) : q.1 = p.1 := by
  unfold sweepUser at h
  by_cases hc : p.2.requests.filter (fun t => decide (c < t)) = [] ∧ p.2.violations = 0
  · simp [hc] at h
  · simp only [hc, if_neg, not_false_iff, Option.some.injEq] at h
    rw [← h]

theorem lookupA_filterMap_sweep {c : Int} {l : List (String × UserData)}
    (h : (l.map Prod.fst).Nodup) (u : String) :
    lookupA u (l.filterMap (sweepUser c)) =
      (lookupA u l).bind (fun r => (sweepUser c (u, r)).map Prod.snd) := by
  induction l with
  | nil => simp [lookupA]
  | cons p rest ih =>
      obtain ⟨a, b⟩ := p
      simp only [List.map_cons, List.nodup_cons] at h
      by_cases hp : a = u
      · subst hp
        have hrest : lookupA a (rest.filterMap (sweepUser c)) = none :=
          lookupA_not_mem (fun hm =>
            h.1 ((keys_filterMap_sublist _ (fun p q hq => sweepUser_key hq) rest).subset hm))
        cases hf : sweepUser c (a, b) with
        | none =>
            simp only [List.filterMap_cons, hf]
            simp [lookupA, hf, hrest]
        | some q =>
            have hk : q.1 = a := sweepUser_key hf
            simp only [List.filterMap_cons, hf]
            simp [lookupA, hk, hf]
      · cases hf : sweepUser c (a, b) with
        | none =>
            simp only [List.filterMap_cons, hf]
            simp [lookupA, hp, ih h.2]
        | some q =>
            have hk : q.1 = a := sweepUser_key hf
            simp only [List.filterMap_cons, hf]
            simp [lookupA, hk, hp, ih h.2]

theorem lookupA_filter_nodup {α : Type} {l : List (String × α)}
    (h : (l.map Prod.fst).Nodup) (pr : String × α → Bool) (u : String) :
    lookupA u (l.filter pr) =
      (lookupA u l).bind (fun e => if pr (u, e) then some e else none) := by
  induction l with
  | nil => simp [lookupA]
  | cons p rest ih =>
      obtain ⟨a, b⟩ := p
      simp only [List.map_cons, List.nodup_cons] at h
      by_cases hp : a = u
      · subst hp
        have hrest : lookupA a (rest.filter pr) = none :=
          lookupA_not_mem (fun hm =>
            h.1 (((List.filter_sublist rest).map Prod.fst).subset hm))
        cases hf : pr (a, b) with
        | false =>
            simp only [List.filter_cons, hf, Bool.false_eq_true, if_false]
            simp [lookupA, hf, hrest]
        | true =>
            simp only [List.filter_cons, hf, if_true]
            simp [lookupA, hf]
      · cases hf : pr (a, b) with
        | false =>
            simp only [List.filter_cons, hf, Bool.false_eq_true, if_false]
            simp [lookupA, hp, ih h.2]
        | true =>
            simp only [List.filter_cons, hf, if_true]
            simp [lookupA, hp, ih h.2]

/-- Well-formedness plus the ban-record invariant: a caller with a temp-ban
entry always has a ledger record holding at least 3 violations. -/
def BanInv (rl : RateLimiter) : Prop :=
  WFKeys rl ∧
  ∀ u, (lookupA u rl.tempBans).isSome →
    ∃ r : UserData, lookupA u rl.userLimits = some r ∧ (3 : ℚ) ≤ r.violations

theorem banInv_check (rl : RateLimiter) (u : String) (n : Int)
    (h : BanInv rl) : BanInv (checkRateLimit rl u n).2 := by
  obtain ⟨⟨hwu, hwb⟩, hban⟩ := h
  rcases checkRateLimit_cases rl u n with ⟨e, hlb, hne, heq⟩ |
    ⟨rl1, hcase, hUL, hGL, hcfg, hprem, heq⟩
  · rw [heq]
    exact ⟨⟨hwu, hwb⟩, hban⟩
  · have hbans1 : (rl1.tempBans.map Prod.fst).Nodup := by
      rcases hcase with ⟨h1, _⟩ | h1 <;> rw [h1]
      · exact hwb
      · exact nodupKeys_eraseA u hwb
    have hUL1 : (rl1.userLimits.map Prod.fst).Nodup := by rw [hUL]; exact hwu
    have hbu : (lookupA u rl1.tempBans) = none := by
      rcases hcase with ⟨h1, h2⟩ | h1
      · rw [h1]; exact h2
      · rw [h1]; exact lookupA_eraseA_self u rl.tempBans
    have hbw : ∀ w, w ≠ u → lookupA w rl1.tempBans = lookupA w rl.tempBans := by
      intro w hw
      rcases hcase with ⟨h1, _⟩ | h1
      · rw [h1]
      · rw [h1]; exact lookupA_eraseA_ne hw rl.tempBans
    rcases checkLimits_cases rl1 u n with ⟨h1, h2, heq2⟩ | ⟨h1, h2, heq2⟩ | ⟨h1, h2, heq2⟩ |
      ⟨h1, h2, hg, heq2⟩ | ⟨h1, h2, h3, h4, heq2⟩
    -- minute breach with ban installed
    · rw [heq, heq2]
      refine ⟨⟨nodupKeys_setA _ _ hUL1, nodupKeys_setA _ _ hbans1⟩, ?_⟩
      intro w hw
      by_cases hwu' : w = u
      · subst hwu'
        exact ⟨⟨prunedRequests rl1 w n, (userDataOf rl1 w).violations + 1⟩,
          lookupA_setA_self _ _ _, h2⟩
      · rw [lookupA_setA_ne hwu' _ rl1.tempBans] at hw
        rw [hbw w hwu'] at hw
        obtain ⟨r, hr, hr3⟩ := hban w hw
        refine ⟨r, ?_, hr3⟩
        rw [lookupA_setA_ne hwu' _ rl1.userLimits, hUL]
        exact hr
    -- minute breach without ban
    · rw [heq, heq2]
      refine ⟨⟨nodupKeys_setA _ _ hUL1, hbans1⟩, ?_⟩
      intro w hw
      by_cases hwu' : w = u
      · subst hwu'
        rw [hbu] at hw
        simp at hw
      · rw [hbw w hwu'] at hw
        obtain ⟨r, hr, hr3⟩ := hban w hw
        refine ⟨r, ?_, hr3⟩
        rw [lookupA_setA_ne hwu' _ rl1.userLimits, hUL]
        exact hr
    -- hour limit
    · rw [heq, heq2]
      refine ⟨⟨nodupKeys_setA _ _ hUL1, hbans1⟩, ?_⟩
      intro w hw
      by_cases hwu' : w = u
      · subst hwu'
        rw [hbu] at hw
        simp at hw
      · rw [hbw w hwu'] at hw
        obtain ⟨r, hr, hr3⟩ := hban w hw
        refine ⟨r, ?_, hr3⟩
        rw [lookupA_setA_ne hwu' _ rl1.userLimits, hUL]
        exact hr
    -- global denial
    · rw [heq]
      rw [heq2]
      refine ⟨⟨nodupKeys_setA _ _ hUL1, hbans1⟩, ?_⟩
      intro w hw
      by_cases hwu' : w = u
      · subst hwu'
        rw [hbu] at hw
        simp at hw
      · rw [hbw w hwu'] at hw
        obtain ⟨r, hr, hr3⟩ := hban w hw
        refine ⟨r, ?_, hr3⟩
        rw [lookupA_setA_ne hwu' _ rl1.userLimits, hUL]
        exact hr
    -- allowed
    · rw [heq, heq2]
      refine ⟨⟨nodupKeys_setA _ _ hUL1, hbans1⟩, ?_⟩
      intro w hw
      by_cases hwu' : w = u
      · subst hwu'
        rw [hbu] at hw
        simp at hw
      · rw [hbw w hwu'] at hw
        obtain ⟨r, hr, hr3⟩ := hban w hw
        refine ⟨r, ?_, hr3⟩
        rw [lookupA_setA_ne hwu' _ rl1.userLimits, hUL]
        exact hr

theorem banInv_applyOp (rl : RateLimiter) (op : OpEvent)
    (h : BanInv rl) : BanInv (applyOp rl op) := by
  obtain ⟨⟨hwu, hwb⟩, hban⟩ := h
  cases op with
  | check u n => exact banInv_check rl u n ⟨⟨hwu, hwb⟩, hban⟩
  | sweep n =>
      constructor
      · constructor
        · show ((rl.userLimits.filterMap (sweepUser (n - 3600000))).map Prod.fst).Nodup
          exact (keys_filterMap_sublist (sweepUser (n - 3600000))
            (fun p q hq => sweepUser_key hq) rl.userLimits).nodup hwu
        · show ((rl.tempBans.filter (fun p => decide (¬ n > p.2))).map Prod.fst).Nodup
          exact ((List.filter_sublist rl.tempBans).map Prod.fst).nodup hwb
      · intro w hw
        simp only [applyOp, cleanup] at hw ⊢
        rw [lookupA_filter_nodup hwb _ w] at hw
        cases hb : lookupA w rl.tempBans with
        | none => rw [hb] at hw; simp at hw
        | some e =>
            obtain ⟨r, hr, hr3⟩ := hban w (by rw [hb]; rfl)
            rw [lookupA_filterMap_sweep hwu w, hr]
            have hcond : ¬ (r.requests.filter (fun t => decide (n - 3600000 < t)) = [] ∧
                r.violations = 0) := by
              rintro ⟨_, hv0⟩
              rw [hv0] at hr3
              norm_num at hr3
            refine ⟨⟨r.requests.filter (fun t => decide (n - 3600000 < t)), r.violations⟩, ?_, hr3⟩
            have hsw : sweepUser (n - 3600000) (w, r) =
                some (w, ⟨r.requests.filter (fun t => decide (n - 3600000 < t)), r.violations⟩) := by
              unfold sweepUser
              dsimp only
              rw [if_neg hcond]
            simp [hsw]
  | addPrem u => exact ⟨⟨hwu, hwb⟩, hban⟩
  | removePrem u => exact ⟨⟨hwu, hwb⟩, hban⟩
  | clearUser u =>
      constructor
      · exact ⟨nodupKeys_eraseA u hwu, nodupKeys_eraseA u hwb⟩
      · intro w hw
        simp only [applyOp, clearUserLimits] at hw ⊢
        by_cases hwu' : w = u
        · subst hwu'
          rw [lookupA_eraseA_self] at hw
          simp at hw
        · rw [lookupA_eraseA_ne hwu'] at hw
          obtain ⟨r, hr, hr3⟩ := hban w hw
          exact ⟨r, by rw [lookupA_eraseA_ne hwu']; exact hr, hr3⟩

theorem banInv_reachable {cfg : Config} {prem : List String} {rl : RateLimiter}
    (h : Reachable cfg prem rl) : BanInv rl := by
  obtain ⟨ops, rfl⟩ := h
  have : ∀ (ops : List OpEvent) (s : RateLimiter), BanInv s →
      BanInv (ops.foldl applyOp s) := by
    intro ops
    induction ops with
    | nil => exact fun s hs => hs
    | cons op rest ih => exact fun s hs => ih (applyOp s op) (banInv_applyOp s op hs)
  refine this ops (RateLimiter.init cfg prem) ⟨⟨by simp [RateLimiter.init], by simp [RateLimiter.init]⟩, ?_⟩
  intro w hw
  simp [RateLimiter.init, lookupA] at hw

/-- C10: getUserStats never mutates the limiter state, and on a reachable
state a caller with no ledger record is reported with zero used quota in
both windows, zero violations, and tempBanned = false, with no record
created. -/
theorem C10_stats_pure (rl : RateLimiter) (u : String) (n : Int) :
    (getUserStats rl u n).2 = rl
  ∧ (∀ (cfg : Config) (prem : List String), Reachable cfg prem rl →
       lookupA u rl.userLimits = none →
       (getUserStats rl u n).1 =
         ⟨rl.premiumUsers.contains u, 0, minuteQuotaFor rl.config rl.premiumUsers u,
          0, hourQuotaFor rl.config rl.premiumUsers u, 0, false⟩) := by
  refine ⟨rfl, ?_⟩
  intro cfg prem hreach hnone
  have hbi := banInv_reachable hreach
  have hb : lookupA u rl.tempBans = none := by
    cases hb : lookupA u rl.tempBans with
    | none => rfl
    | some e =>
        obtain ⟨r, hr, _⟩ := hbi.2 u (by rw [hb]; rfl)
        rw [hnone] at hr
        exact absurd hr (by simp)
  unfold getUserStats
  simp [userDataOf, hnone, hb]

theorem C10_witness :
    (getUserStats (RateLimiter.init defaultConfig []) "a" 5).2 = RateLimiter.init defaultConfig []
  ∧ (getUserStats (RateLimiter.init defaultConfig []) "a" 5).1 =
      ⟨(RateLimiter.init defaultConfig []).premiumUsers.contains "a", 0,
       minuteQuotaFor (RateLimiter.init defaultConfig []).config
         (RateLimiter.init defaultConfig []).premiumUsers "a",
       0, hourQuotaFor (RateLimiter.init defaultConfig []).config
         (RateLimiter.init defaultConfig []).premiumUsers "a", 0, false⟩ :=
  ⟨(C10_stats_pure (RateLimiter.init defaultConfig []) "a" 5).1,
   (C10_stats_pure (RateLimiter.init defaultConfig []) "a" 5).2 defaultConfig [] ⟨[], rfl⟩ rfl⟩

theorem filter_sub {α : Type} {p q : α → Bool} (l : List α)
    (h : ∀ a ∈ l, q a = true → p a = true) : (l.filter p).filter q = l.filter q := by
  induction l with
  | nil => rfl
  | cons a rest ih =>
      have ih' := ih (fun x hx => h x (List.mem_cons_of_mem _ hx))
      by_cases hp : p a
      · by_cases hq : q a
        · simp [List.filter_cons, hp, hq, ih']
        · simp [List.filter_cons, hp, hq, ih']
      · have hq : q a = false := by
          cases hqa : q a with
          | false => rfl
          | true => exact absurd (h a (List.mem_cons_self _ _) hqa) (by simpa using hp)
        simp [List.filter_cons, hp, hq, ih']

theorem length_filter_mono {α : Type} {p q : α → Bool} (l : List α)
    (h : ∀ a ∈ l, p a = true → q a = true) :
    (l.filter p).length ≤ (l.filter q).length := by
  induction l with
  | nil => exact le_refl _
  | cons a rest ih =>
      have ih' := ih (fun x hx => h x (List.mem_cons_of_mem _ hx))
      rw [List.filter_cons, List.filter_cons]
      by_cases hp : p a = true
      · have hq := h a (List.mem_cons_self _ _) hp
        rw [if_pos hp, if_pos hq, List.length_cons, List.length_cons]
        exact Nat.succ_le_succ ih'
      · rw [if_neg hp]
        by_cases hq : q a = true
        · rw [if_pos hq, List.length_cons]
          exact le_trans ih' (Nat.le_succ _)
        · rw [if_neg hq]
          exact ih'

theorem windowCount_append_one (l : List Int) (x T w : Int) :
    windowCount (l ++ [x]) T w =
      windowCount l T w + (if T - w < x ∧ x ≤ T then 1 else 0) := by
  unfold windowCount
  rw [List.filter_append, List.length_append]
  congr 1
  by_cases h : T - w < x ∧ x ≤ T
  · simp [h]
  · simp [h]

theorem windowCount_le_of_mem {l : List Int} {T w n : Int}
    (hn : T - w < n ∧ n ≤ T) (hl : ∀ t ∈ l, t ≤ n) :
    windowCount l T w ≤ windowCount l n w := by
  unfold windowCount
  apply length_filter_mono
  intro t ht hp
  simp only [decide_eq_true_eq] at hp ⊢
  exact ⟨by linarith [hn.2, hp.1], hl t ht⟩

theorem timesFor_append (u : String) (l1 l2 : List (String × Int)) :
    timesFor u (l1 ++ l2) = timesFor u l1 ++ timesFor u l2 := by
  simp [timesFor, List.filter_append]

theorem allTimes_append (l1 l2 : List (String × Int)) :
    allTimes (l1 ++ l2) = allTimes l1 ++ allTimes l2 := by
  simp [allTimes]

theorem timesFor_single (w u : String) (n : Int) :
    timesFor w [(u, n)] = if u = w then [n] else [] := by
  by_cases h : u = w
  · subst h
    simp [timesFor]
  · simp [timesFor, h]

theorem CutLe_mono {c : Option Int} {b b' : Int} (h : CutLe c b) (hb : b ≤ b') :
    CutLe c b' := by
  intro v hv
  have := h v hv
  linarith

theorem Inv_congr {cfg : Config} {prem : List String} {A A' : String → List Int}
    {G G' : List Int} {b : Int} {rl : RateLimiter}
    (hA : ∀ w, A' w = A w) (hG : G' = G) (h : Inv cfg prem A G b rl) :
    Inv cfg prem A' G' b rl := by
  refine ⟨h.config_eq, h.prem_eq, h.wf, ?_, ?_, ?_, ?_, ?_, ?_, ?_, ?_⟩
  · intro w
    rw [hA w]
    exact h.user_req w
  · rw [hG]
    exact h.glob_req
  · intro w
    rw [hA w]
    exact h.user_le w
  · rw [hG]
    exact h.glob_le
  · intro w T
    rw [hA w]
    exact h.user_min w T
  · intro w T
    rw [hA w]
    exact h.user_hour w T
  · intro T
    rw [hG]
    exact h.glob_min T
  · intro T
    rw [hG]
    exact h.glob_hour T

theorem Inv_mono_b {cfg : Config} {prem : List String} {A : String → List Int}
    {G : List Int} {b b' : Int} {rl : RateLimiter}
    (h : Inv cfg prem A G b rl) (hb : b ≤ b') : Inv cfg prem A G b' rl := by
  refine ⟨h.config_eq, h.prem_eq, h.wf, ?_, ?_, ?_, ?_, h.user_min, h.user_hour,
    h.glob_min, h.glob_hour⟩
  · intro w
    obtain ⟨c, hc, hr⟩ := h.user_req w
    exact ⟨c, CutLe_mono hc hb, hr⟩
  · obtain ⟨c, hc, hr⟩ := h.glob_req
    exact ⟨c, CutLe_mono hc hb, hr⟩
  · intro w t ht
    exact le_trans (h.user_le w t ht) hb
  · intro t ht
    exact le_trans (h.glob_le t ht) hb

theorem pruned_eq_cut {rl : RateLimiter} {u : String} {n b : Int}
    {A : List Int} {c : Option Int} (hc : CutLe c b) (hb : b ≤ n)
    (hr : ReqOf rl u = listFilterC c A) :
    prunedRequests rl u n = A.filter (fun t => decide (n - 3600000 < t)) := by
  have hpr : prunedRequests rl u n =
      (ReqOf rl u).filter (fun t => decide (n - t < 3600000)) := rfl
  rw [hpr, hr]
  have step1 : (listFilterC c A).filter (fun t => decide (n - t < 3600000)) =
      A.filter (fun t => decide (n - t < 3600000)) := by
    cases c with
    | none => rfl
    | some v =>
        apply filter_sub
        intro t _ hq
        simp only [decide_eq_true_eq] at hq ⊢
        have := hc v rfl
        linarith
  rw [step1]
  apply List.filter_congr
  intro t _
  simp only [decide_eq_decide]
  omega

theorem counts_eq_user {rl : RateLimiter} {u : String} {n b : Int}
    {A : List Int} {c : Option Int} (hc : CutLe c b) (hb : b ≤ n)
    (hr : ReqOf rl u = listFilterC c A) (hA : ∀ t ∈ A, t ≤ n) :
    prunedRequests rl u n = A.filter (fun t => decide (n - 3600000 < t)) ∧
    recentMinuteCount rl u n = windowCount A n 60000 ∧
    recentHourCount rl u n = windowCount A n 3600000 := by
  have hp := pruned_eq_cut hc hb hr
  refine ⟨hp, ?_, ?_⟩
  · have hm : minuteRequests rl u n = A.filter (fun t => decide (n - t < 60000)) := by
      have h0 : minuteRequests rl u n =
          (prunedRequests rl u n).filter (fun t => decide (n - t < 60000)) := rfl
      rw [h0, hp]
      apply filter_sub
      intro t _ hq
      simp only [decide_eq_true_eq] at hq ⊢
      omega
    unfold recentMinuteCount windowCount
    rw [hm]
    congr 1
    apply List.filter_congr
    intro t ht
    simp only [decide_eq_decide]
    have := hA t ht
    omega
  · unfold recentHourCount windowCount
    rw [hp]
    congr 1
    apply List.filter_congr
    intro t ht
    simp only [decide_eq_decide]
    have := hA t ht
    omega

theorem counts_eq_glob {rl : RateLimiter} {n b : Int}
    {G : List Int} {c : Option Int} (hc : CutLe c b) (hb : b ≤ n)
    (hr : ReqG rl = listFilterC c G) (hG : ∀ t ∈ G, t ≤ n) :
    prunedGlobal rl n = G.filter (fun t => decide (n - 3600000 < t)) ∧
    globalMinuteCount rl n = windowCount G n 60000 ∧
    globalHourCount rl n = windowCount G n 3600000 := by
  have hpr : prunedGlobal rl n = (ReqG rl).filter (fun t => decide (n - t < 3600000)) := rfl
  have hp : prunedGlobal rl n = G.filter (fun t => decide (n - 3600000 < t)) := by
    rw [hpr, hr]
    have step1 : (listFilterC c G).filter (fun t => decide (n - t < 3600000)) =
        G.filter (fun t => decide (n - t < 3600000)) := by
      cases c with
      | none => rfl
      | some v =>
          apply filter_sub
          intro t _ hq
          simp only [decide_eq_true_eq] at hq ⊢
          have := hc v rfl
          linarith
    rw [step1]
    apply List.filter_congr
    intro t _
    simp only [decide_eq_decide]
    omega
  refine ⟨hp, ?_, ?_⟩
  · have hm : (prunedGlobal rl n).filter (fun t => decide (n - t < 60000)) =
        G.filter (fun t => decide (n - t < 60000)) := by
      rw [hp]
      apply filter_sub
      intro t _ hq
      simp only [decide_eq_true_eq] at hq ⊢
      omega
    unfold globalMinuteCount windowCount
    rw [hm]
    congr 1
    apply List.filter_congr
    intro t ht
    simp only [decide_eq_decide]
    have := hG t ht
    omega
  · unfold globalHourCount windowCount
    rw [hp]
    congr 1
    apply List.filter_congr
    intro t ht
    simp only [decide_eq_decide]
    have := hG t ht
    omega

theorem listFilterC_some_append (A : List Int) (n : Int) (h : n - 3600000 < n) :
    listFilterC (some (n - 3600000)) (A ++ [n]) =
      A.filter (fun t => decide (n - 3600000 < t)) ++ [n] := by
  show (A ++ [n]).filter (fun t => decide (n - 3600000 < t)) = _
  rw [List.filter_append]
  congr 1
  simp [h]

theorem CutLe_hour (n : Int) : CutLe (some (n - 3600000)) n := by
  intro v hv
  injection hv with hv
  rw [← hv]

theorem inv_step_check {cfg : Config} {prem : List String} {A : String → List Int}
    {G : List Int} {b : Int} {rl : RateLimiter} (hInv : Inv cfg prem A G b rl)
    (u : String) {n : Int} (hb : b ≤ n) :
    Inv cfg prem
      (fun w => A w ++ timesFor w
        (if (checkRateLimit rl u n).1.allowed = true then [(u, n)] else []))
      (G ++ allTimes (if (checkRateLimit rl u n).1.allowed = true then [(u, n)] else []))
      n (checkRateLimit rl u n).2 := by
  have hInv' := Inv_mono_b hInv hb
  rcases checkRateLimit_cases rl u n with ⟨e, hlb, hne, heq⟩ |
    ⟨rl1, hcase, hUL, hGL, hcfg, hprem, heq⟩
  · rw [heq]
    refine Inv_congr ?_ ?_ hInv'
    · intro w
      simp [timesFor]
    · simp [allTimes]
  · -- transported facts about rl1
    have hqm : minuteQuotaFor rl1.config rl1.premiumUsers u = minuteQuotaFor cfg prem u := by
      rw [hcfg, hprem, hInv.config_eq, hInv.prem_eq]
    have hqh : hourQuotaFor rl1.config rl1.premiumUsers u = hourQuotaFor cfg prem u := by
      rw [hcfg, hprem, hInv.config_eq, hInv.prem_eq]
    have hgcm : rl1.config.globalRequestsPerMinute = cfg.globalRequestsPerMinute := by
      rw [hcfg, hInv.config_eq]
    have hgch : rl1.config.globalRequestsPerHour = cfg.globalRequestsPerHour := by
      rw [hcfg, hInv.config_eq]
    obtain ⟨cu, hcu, hru⟩ := hInv.user_req u
    have hru1 : ReqOf rl1 u = listFilterC cu (A u) := by
      rw [show ReqOf rl1 u = ReqOf rl u from by simp [ReqOf, userDataOf_congr hUL]]
      exact hru
    have hAu : ∀ t ∈ A u, t ≤ n := fun t ht => le_trans (hInv.user_le u t ht) hb
    obtain ⟨hp1, hm1, hh1⟩ := counts_eq_user hcu hb hru1 hAu
    obtain ⟨cg, hcg, hrg⟩ := hInv.glob_req
    have hrg1 : ReqG rl1 = listFilterC cg G := by
      rw [show ReqG rl1 = ReqG rl from by simp [ReqG, hGL]]
      exact hrg
    have hGn : ∀ t ∈ G, t ≤ n := fun t ht => le_trans (hInv.glob_le t ht) hb
    obtain ⟨hgp, hgm, hgh⟩ := counts_eq_glob hcg hb hrg1 hGn
    have hwf1u : (rl1.userLimits.map Prod.fst).Nodup := by
      rw [hUL]
      exact hInv.wf.1
    have hwf1b : (rl1.tempBans.map Prod.fst).Nodup := by
      rcases hcase with ⟨h1, _⟩ | h1 <;> rw [h1]
      · exact hInv.wf.2
      · exact nodupKeys_eraseA u hInv.wf.2
    -- generic pieces for the denial branches
    have userReq : ∀ (S : RateLimiter) (d : UserData),
        S.userLimits = setA u d rl1.userLimits →
        d.requests = prunedRequests rl1 u n →
        ∀ w, ∃ c, CutLe c n ∧ ReqOf S w = listFilterC c (A w) := by
      intro S d hS hd w
      by_cases hw : w = u
      · subst hw
        refine ⟨some (n - 3600000), CutLe_hour n, ?_⟩
        rw [ReqOf_setA_self hS, hd, hp1]
        rfl
      · obtain ⟨c, hc, hr⟩ := hInv.user_req w
        refine ⟨c, CutLe_mono hc hb, ?_⟩
        rw [ReqOf_setA_ne hS hw (rfl : rl1.userLimits = rl1.userLimits)]
        rw [show ReqOf rl1 w = ReqOf rl w from by simp [ReqOf, userDataOf_congr hUL]]
        exact hr
    have userLe : ∀ w, ∀ t ∈ A w, t ≤ n :=
      fun w t ht => le_trans (hInv.user_le w t ht) hb
    rcases checkLimits_cases rl1 u n with ⟨h1, h2, heq2⟩ | ⟨h1, h2, heq2⟩ | ⟨h1, h2, heq2⟩ |
      ⟨h1, h2, hg, heq2⟩ | ⟨h1, h2, h3, h4, heq2⟩
    -- branch 1: minute breach, ban applied (denied)
    · have hall : (checkRateLimit rl u n).1.allowed = false := by
        rw [heq, heq2]
      simp only [hall, Bool.false_eq_true, if_false]
      refine @Inv_congr cfg prem A _ G _ n _ (fun w => by simp [timesFor]) (by simp [allTimes]) ?_
      rw [heq, heq2]
      refine ⟨?_, ?_, ⟨?_, ?_⟩, ?_, ?_, ?_, ?_, hInv.user_min, hInv.user_hour,
        hInv.glob_min, hInv.glob_hour⟩
      · show rl1.config = cfg
        rw [hcfg, hInv.config_eq]
      · show rl1.premiumUsers = prem
        rw [hprem, hInv.prem_eq]
      · exact nodupKeys_setA _ _ hwf1u
      · exact nodupKeys_setA _ _ hwf1b
      · exact userReq _ _ rfl rfl
      · obtain ⟨c, hc, hr⟩ := hInv.glob_req
        refine ⟨c, CutLe_mono hc hb, ?_⟩
        show rl1.globalLimits.getD [] = listFilterC c G
        rw [hGL]
        exact hr
      · exact userLe
      · exact hGn
    -- branch 2: minute breach, no ban (denied)
    · have hall : (checkRateLimit rl u n).1.allowed = false := by
        rw [heq, heq2]
      simp only [hall, Bool.false_eq_true, if_false]
      refine @Inv_congr cfg prem A _ G _ n _ (fun w => by simp [timesFor]) (by simp [allTimes]) ?_
      rw [heq, heq2]
      refine ⟨?_, ?_, ⟨?_, ?_⟩, ?_, ?_, ?_, ?_, hInv.user_min, hInv.user_hour,
        hInv.glob_min, hInv.glob_hour⟩
      · show rl1.config = cfg
        rw [hcfg, hInv.config_eq]
      · show rl1.premiumUsers = prem
        rw [hprem, hInv.prem_eq]
      · exact nodupKeys_setA _ _ hwf1u
      · exact hwf1b
      · exact userReq _ _ rfl rfl
      · obtain ⟨c, hc, hr⟩ := hInv.glob_req
        refine ⟨c, CutLe_mono hc hb, ?_⟩
        show rl1.globalLimits.getD [] = listFilterC c G
        rw [hGL]
        exact hr
      · exact userLe
      · exact hGn
    -- branch 3: hour breach (denied)
    · have hall : (checkRateLimit rl u n).1.allowed = false := by
        rw [heq, heq2]
      simp only [hall, Bool.false_eq_true, if_false]
      refine @Inv_congr cfg prem A _ G _ n _ (fun w => by simp [timesFor]) (by simp [allTimes]) ?_
      rw [heq, heq2]
      refine ⟨?_, ?_, ⟨?_, ?_⟩, ?_, ?_, ?_, ?_, hInv.user_min, hInv.user_hour,
        hInv.glob_min, hInv.glob_hour⟩
      · show rl1.config = cfg
        rw [hcfg, hInv.config_eq]
      · show rl1.premiumUsers = prem
        rw [hprem, hInv.prem_eq]
      · exact nodupKeys_setA _ _ hwf1u
      · exact hwf1b
      · exact userReq _ _ rfl rfl
      · obtain ⟨c, hc, hr⟩ := hInv.glob_req
        refine ⟨c, CutLe_mono hc hb, ?_⟩
        show rl1.globalLimits.getD [] = listFilterC c G
        rw [hGL]
        exact hr
      · exact userLe
      · exact hGn
    -- branch 4: global denial
    · have hall : (checkRateLimit rl u n).1.allowed = false := by
        rw [heq]
        rcases hg with ⟨_, hd⟩ | ⟨_, _, hd⟩ <;> rw [hd]
      simp only [hall, Bool.false_eq_true, if_false]
      refine @Inv_congr cfg prem A _ G _ n _ (fun w => by simp [timesFor]) (by simp [allTimes]) ?_
      rw [heq, heq2]
      refine ⟨?_, ?_, ⟨?_, ?_⟩, ?_, ?_, ?_, ?_, hInv.user_min, hInv.user_hour,
        hInv.glob_min, hInv.glob_hour⟩
      · show rl1.config = cfg
        rw [hcfg, hInv.config_eq]
      · show rl1.premiumUsers = prem
        rw [hprem, hInv.prem_eq]
      · exact nodupKeys_setA _ _ hwf1u
      · exact hwf1b
      · exact userReq _ _ rfl rfl
      · refine ⟨some (n - 3600000), CutLe_hour n, ?_⟩
        show (some (prunedGlobal rl1 n)).getD [] = listFilterC (some (n - 3600000)) G
        rw [Option.getD_some, hgp]
        rfl
      · exact userLe
      · exact hGn
    -- branch 5: admitted
    · have hall : (checkRateLimit rl u n).1.allowed = true := by
        rw [heq, heq2]
      simp only [hall, if_true]
      rw [heq, heq2]
      have hwm : windowCount (A u) n 60000 < minuteQuotaFor cfg prem u := by
        rw [← hm1, ← hqm]
        exact h1
      have hwh : windowCount (A u) n 3600000 < hourQuotaFor cfg prem u := by
        rw [← hh1, ← hqh]
        exact h2
      have hwgm : windowCount G n 60000 < cfg.globalRequestsPerMinute := by
        rw [← hgm, ← hgcm]
        exact h3
      have hwgh : windowCount G n 3600000 < cfg.globalRequestsPerHour := by
        rw [← hgh, ← hgch]
        exact h4
      refine ⟨?_, ?_, ⟨?_, ?_⟩, ?_, ?_, ?_, ?_, ?_, ?_, ?_, ?_⟩
      · show rl1.config = cfg
        rw [hcfg, hInv.config_eq]
      · show rl1.premiumUsers = prem
        rw [hprem, hInv.prem_eq]
      · exact nodupKeys_setA _ _ hwf1u
      · exact hwf1b
      · intro w
        by_cases hw : w = u
        · subst hw
          refine ⟨some (n - 3600000), CutLe_hour n, ?_⟩
          rw [ReqOf_setA_self rfl]
          rw [timesFor_single]
          rw [if_pos rfl]
          rw [listFilterC_some_append _ _ (by omega), ← hp1]
        · obtain ⟨c, hc, hr⟩ := hInv.user_req w
          refine ⟨c, CutLe_mono hc hb, ?_⟩
          rw [ReqOf_setA_ne rfl hw (rfl : rl1.userLimits = rl1.userLimits)]
          rw [timesFor_single, if_neg (fun hh => hw hh.symm), List.append_nil]
          rw [show ReqOf rl1 w = ReqOf rl w from by simp [ReqOf, userDataOf_congr hUL]]
          exact hr
      · refine ⟨some (n - 3600000), CutLe_hour n, ?_⟩
        show (some (prunedGlobal rl1 n ++ [n])).getD [] =
          listFilterC (some (n - 3600000)) (G ++ allTimes [(u, n)])
        rw [Option.getD_some, hgp]
        rw [show allTimes [(u, n)] = [n] from rfl]
        rw [listFilterC_some_append _ _ (by omega)]
      · intro w t ht
        by_cases hw : w = u
        · subst hw
          rw [timesFor_single, if_pos rfl] at ht
          rcases List.mem_append.mp ht with h5 | h5
          · exact userLe w t h5
          · simp only [List.mem_singleton] at h5
            rw [h5]
        · rw [timesFor_single, if_neg (fun hh => hw hh.symm), List.append_nil] at ht
          exact userLe w t ht
      · intro t ht
        rw [show allTimes [(u, n)] = [n] from rfl] at ht
        rcases List.mem_append.mp ht with h5 | h5
        · exact hGn t h5
        · simp only [List.mem_singleton] at h5
          rw [h5]
      · intro w T
        by_cases hw : w = u
        · subst hw
          rw [timesFor_single, if_pos rfl, windowCount_append_one]
          by_cases hT : T - 60000 < n ∧ n ≤ T
          · rw [if_pos hT]
            have := windowCount_le_of_mem hT hAu (w := 60000)
            omega
          · rw [if_neg hT]
            have := hInv.user_min w T
            omega
        · rw [timesFor_single, if_neg (fun hh => hw hh.symm), List.append_nil]
          exact hInv.user_min w T
      · intro w T
        by_cases hw : w = u
        · subst hw
          rw [timesFor_single, if_pos rfl, windowCount_append_one]
          by_cases hT : T - 3600000 < n ∧ n ≤ T
          · rw [if_pos hT]
            have := windowCount_le_of_mem hT hAu (w := 3600000)
            omega
          · rw [if_neg hT]
            have := hInv.user_hour w T
            omega
        · rw [timesFor_single, if_neg (fun hh => hw hh.symm), List.append_nil]
          exact hInv.user_hour w T
      · intro T
        rw [show allTimes [(u, n)] = [n] from rfl, windowCount_append_one]
        by_cases hT : T - 60000 < n ∧ n ≤ T
        · rw [if_pos hT]
          have := windowCount_le_of_mem hT hGn (w := 60000)
          omega
        · rw [if_neg hT]
          have := hInv.glob_min T
          omega
      · intro T
        rw [show allTimes [(u, n)] = [n] from rfl, windowCount_append_one]
        by_cases hT : T - 3600000 < n ∧ n ≤ T
        · rw [if_pos hT]
          have := windowCount_le_of_mem hT hGn (w := 3600000)
          omega
        · rw [if_neg hT]
          have := hInv.glob_hour T
          omega

theorem listFilterC_collapse {c : Option Int} {b n : Int} (hc : CutLe c b)
    (hb : b ≤ n) (A : List Int) :
    (listFilterC c A).filter (fun t => decide (n - 3600000 < t)) =
      listFilterC (some (n - 3600000)) A := by
  cases c with
  | none => rfl
  | some v =>
      show (A.filter (fun t => decide (v < t))).filter (fun t => decide (n - 3600000 < t)) = _
      apply filter_sub
      intro t _ hq
      simp only [decide_eq_true_eq] at hq ⊢
      have := hc v rfl
      linarith

theorem inv_step_sweep {cfg : Config} {prem : List String} {A : String → List Int}
    {G : List Int} {b : Int} {rl : RateLimiter} (hInv : Inv cfg prem A G b rl)
    {n : Int} (hb : b ≤ n) :
    Inv cfg prem A G n (cleanup rl n) := by
  have hInv' := Inv_mono_b hInv hb
  refine ⟨?_, ?_, ⟨?_, ?_⟩, ?_, ?_, hInv'.user_le, hInv'.glob_le, hInv.user_min,
    hInv.user_hour, hInv.glob_min, hInv.glob_hour⟩
  · show rl.config = cfg
    exact hInv.config_eq
  · show rl.premiumUsers = prem
    exact hInv.prem_eq
  · show ((rl.userLimits.filterMap (sweepUser (n - 3600000))).map Prod.fst).Nodup
    exact (keys_filterMap_sublist (sweepUser (n - 3600000))
      (fun p q hq => sweepUser_key hq) rl.userLimits).nodup hInv.wf.1
  · show ((rl.tempBans.filter (fun p => decide (¬ n > p.2))).map Prod.fst).Nodup
    exact ((List.filter_sublist rl.tempBans).map Prod.fst).nodup hInv.wf.2
  · intro w
    obtain ⟨c, hc, hr⟩ := hInv.user_req w
    have hlk : lookupA w (rl.userLimits.filterMap (sweepUser (n - 3600000))) =
        (lookupA w rl.userLimits).bind
          (fun r => (sweepUser (n - 3600000) (w, r)).map Prod.snd) :=
      lookupA_filterMap_sweep hInv.wf.1 w
    cases hlw : lookupA w rl.userLimits with
    | none =>
        have hempty : listFilterC c (A w) = [] := by
          rw [← hr]
          simp [ReqOf, userDataOf, hlw]
        refine ⟨c, CutLe_mono hc hb, ?_⟩
        show ((lookupA w (rl.userLimits.filterMap (sweepUser (n - 3600000)))).getD
          ⟨[], 0⟩).requests = _
        rw [hlk, hlw]
        simp [hempty]
    | some r =>
        have hreq : r.requests = listFilterC c (A w) := by
          rw [← hr]
          simp [ReqOf, userDataOf, hlw]
        have hprune : r.requests.filter (fun t => decide (n - 3600000 < t)) =
            listFilterC (some (n - 3600000)) (A w) := by
          rw [hreq]
          exact listFilterC_collapse hc hb (A w)
        by_cases hcond : r.requests.filter (fun t => decide (n - 3600000 < t)) = [] ∧
            r.violations = 0
        · refine ⟨some (n - 3600000), CutLe_hour n, ?_⟩
          show ((lookupA w (rl.userLimits.filterMap (sweepUser (n - 3600000)))).getD
            ⟨[], 0⟩).requests = _
          rw [hlk, hlw]
          have hsw : sweepUser (n - 3600000) (w, r) = none := by
            unfold sweepUser
            dsimp only
            rw [if_pos hcond]
          rw [← hprune, hcond.1]
          simp [hsw]
        · refine ⟨some (n - 3600000), CutLe_hour n, ?_⟩
          show ((lookupA w (rl.userLimits.filterMap (sweepUser (n - 3600000)))).getD
            ⟨[], 0⟩).requests = _
          rw [hlk, hlw]
          have hsw : sweepUser (n - 3600000) (w, r) =
              some (w, ⟨r.requests.filter (fun t => decide (n - 3600000 < t)),
                r.violations⟩) := by
            unfold sweepUser
            dsimp only
            rw [if_neg hcond]
          rw [← hprune]
          simp [hsw]
  · obtain ⟨c, hc, hr⟩ := hInv.glob_req
    cases hgl : rl.globalLimits with
    | none =>
        have hempty : listFilterC c G = [] := by
          rw [← hr]
          simp [ReqG, hgl]
        refine ⟨c, CutLe_mono hc hb, ?_⟩
        show ((rl.globalLimits.map
          (fun l => l.filter (fun t => decide (n - 3600000 < t)))).getD []) = _
        rw [hgl]
        simp [hempty]
    | some l =>
        have hreq : l = listFilterC c G := by
          rw [← hr]
          simp [ReqG, hgl]
        refine ⟨some (n - 3600000), CutLe_hour n, ?_⟩
        show ((rl.globalLimits.map
          (fun l => l.filter (fun t => decide (n - 3600000 < t)))).getD []) = _
        rw [hgl]
        show l.filter (fun t => decide (n - 3600000 < t)) = listFilterC (some (n - 3600000)) G
        rw [hreq]
        exact listFilterC_collapse hc hb G

theorem inv_run {cfg : Config} {prem : List String} :
    ∀ (τ : List TrafficEvent) (rl : RateLimiter) (A : String → List Int)
      (G : List Int) (b : Int),
    Inv cfg prem A G b rl →
    (∀ e ∈ τ, b ≤ e.time) →
    List.Pairwise (· ≤ ·) (τ.map TrafficEvent.time) →
    ∃ b', Inv cfg prem
        (fun w => A w ++ timesFor w (allowedLog rl τ))
        (G ++ allTimes (allowedLog rl τ)) b' (runTraffic rl τ) := by
  intro τ
  induction τ with
  | nil =>
      intro rl A G b hInv _ _
      refine ⟨b, @Inv_congr cfg prem A _ G _ b _ ?_ ?_ hInv⟩
      · intro w
        simp [allowedLog, timesFor]
      · simp [allowedLog, allTimes]
  | cons e es ih =>
      intro rl A G b hInv hble hsort
      have hsort' : List.Pairwise (· ≤ ·) (es.map TrafficEvent.time) := by
        simp only [List.map_cons, List.pairwise_cons] at hsort
        exact hsort.2
      have hfirst : ∀ e' ∈ es, e.time ≤ e'.time := by
        simp only [List.map_cons, List.pairwise_cons] at hsort
        intro e' he'
        exact hsort.1 _ (List.mem_map_of_mem _ he')
      cases e with
      | req u n =>
          have hb : b ≤ n := hble _ (List.mem_cons_self _ _)
          have hstep := inv_step_check hInv u hb
          obtain ⟨b', hInv'⟩ := ih (checkRateLimit rl u n).2 _ _ n hstep hfirst hsort'
          refine ⟨b', @Inv_congr cfg prem _ _ _ _ b' _ ?_ ?_ hInv'⟩
          · intro w
            show A w ++ timesFor w (allowedLog rl (.req u n :: es)) =
              (A w ++ timesFor w
                (if (checkRateLimit rl u n).1.allowed = true then [(u, n)] else []))
                ++ timesFor w (allowedLog (checkRateLimit rl u n).2 es)
            rw [show allowedLog rl (.req u n :: es) =
              (if (checkRateLimit rl u n).1.allowed = true then [(u, n)] else []) ++
                allowedLog (checkRateLimit rl u n).2 es from rfl]
            rw [timesFor_append, List.append_assoc]
          · show G ++ allTimes (allowedLog rl (.req u n :: es)) =
              (G ++ allTimes
                (if (checkRateLimit rl u n).1.allowed = true then [(u, n)] else []))
                ++ allTimes (allowedLog (checkRateLimit rl u n).2 es)
            rw [show allowedLog rl (.req u n :: es) =
              (if (checkRateLimit rl u n).1.allowed = true then [(u, n)] else []) ++
                allowedLog (checkRateLimit rl u n).2 es from rfl]
            rw [allTimes_append, List.append_assoc]
      | sweep n =>
          have hb : b ≤ n := hble _ (List.mem_cons_self _ _)
          have hstep := inv_step_sweep hInv hb
          obtain ⟨b', hInv'⟩ := ih (cleanup rl n) A G n hstep hfirst hsort'
          exact ⟨b', hInv'⟩

/-- C1: under any time-ordered trace of checkRateLimit calls and sweeps
starting from a fresh limiter, the admitted requests of each caller within
any trailing 60-second (resp. 3600-second) window never exceed that
caller's tier minute (resp. hour) quota, and the admitted requests of all
callers together never exceed the global minute/hour quotas. -/
theorem C1_sliding_window_quotas (cfg : Config) (prem : List String)
    (τ : List TrafficEvent)
    (hsort : List.Pairwise (· ≤ ·) (τ.map TrafficEvent.time))
    (u : String) (T : Int) :
    windowCount (timesFor u (allowedLog (RateLimiter.init cfg prem) τ)) T 60000 ≤
      minuteQuotaFor cfg prem u
  ∧ windowCount (timesFor u (allowedLog (RateLimiter.init cfg prem) τ)) T 3600000 ≤
      hourQuotaFor cfg prem u
  ∧ windowCount (allTimes (allowedLog (RateLimiter.init cfg prem) τ)) T 60000 ≤
      cfg.globalRequestsPerMinute
  ∧ windowCount (allTimes (allowedLog (RateLimiter.init cfg prem) τ)) T 3600000 ≤
      cfg.globalRequestsPerHour := by
  have hbase : ∀ b : Int, Inv cfg prem (fun _ => []) [] b (RateLimiter.init cfg prem) := by
    intro b
    refine ⟨rfl, rfl, ⟨by simp [RateLimiter.init], by simp [RateLimiter.init]⟩,
      ?_, ?_, ?_, ?_, ?_, ?_, ?_, ?_⟩
    · intro w
      exact ⟨none, fun v hv => by simp at hv, rfl⟩
    · exact ⟨none, fun v hv => by simp at hv, rfl⟩
    · intro w t ht
      simp at ht
    · intro t ht
      simp at ht
    · intro w T'
      exact Nat.zero_le _
    · intro w T'
      exact Nat.zero_le _
    · intro T'
      exact Nat.zero_le _
    · intro T'
      exact Nat.zero_le _
  have hble : ∀ e ∈ τ, (τ.head?.elim 0 TrafficEvent.time) ≤ e.time := by
    cases τ with
    | nil => intro e he; simp at he
    | cons e0 es =>
        intro e' he'
        rcases List.mem_cons.mp he' with h1 | h2
        · rw [h1]
          exact le_refl _
        · simp only [List.map_cons, List.pairwise_cons] at hsort
          exact hsort.1 _ (List.mem_map_of_mem _ h2)
  obtain ⟨b', hfin⟩ := inv_run τ (RateLimiter.init cfg prem) (fun _ => []) []
    (τ.head?.elim 0 TrafficEvent.time) (hbase _) hble hsort
  exact ⟨hfin.user_min u T, hfin.user_hour u T, hfin.glob_min T, hfin.glob_hour T⟩

theorem C1_witness :
    windowCount (timesFor "a" (allowedLog (RateLimiter.init defaultConfig [])
      [.req "a" 0, .req "a" 1])) 1 60000 ≤ minuteQuotaFor defaultConfig [] "a"
  ∧ windowCount (timesFor "a" (allowedLog (RateLimiter.init defaultConfig [])
      [.req "a" 0, .req "a" 1])) 1 3600000 ≤ hourQuotaFor defaultConfig [] "a"
  ∧ windowCount (allTimes (allowedLog (RateLimiter.init defaultConfig [])
      [.req "a" 0, .req "a" 1])) 1 60000 ≤ defaultConfig.globalRequestsPerMinute
  ∧ windowCount (allTimes (allowedLog (RateLimiter.init defaultConfig [])
      [.req "a" 0, .req "a" 1])) 1 3600000 ≤ defaultConfig.globalRequestsPerHour :=
  C1_sliding_window_quotas defaultConfig [] [.req "a" 0, .req "a" 1]
    (by simp [List.pairwise_cons, TrafficEvent.time]) "a" 1

end RL
